import Mathlib

/-!
Verification of the reflect-ai gateway against its specification.

The development shallowly embeds the two core pieces of the repository:

* the streaming protocol adapter (`src/server/claude-openai-converter.ts`,
  class `AnthropicToOpenAIAdapter`): vendor stream events in, OpenAI-style
  chunks out, with per-block accumulation state;
* the session registry / worker selector / stale sweep of the server
  (`src/server/index.ts`: `findBestClientForRequest`, the `setInterval`
  stale-tab cleanup, and `processAdapterEvent`).

JavaScript `Map`s are modelled as association lists with `Map.set` keeping
an existing key in place (`aset`), `Set`s as duplicate-free-by-construction
lists (`sadd`/`sdel`), and JavaScript string falsiness (`x || d`) as `jsOr`.
Wall-clock derived fields of the source (`created`, `startTime`, the
`Date.now()` fallback ids) are abstracted: time is not modelled, so the
fallback chunk id is the bare `"chatcmpl"` literal.
-/

/-- Lookup in an association list; first binding wins, like `Map.get`. -/
def alookup {α β : Type} [DecidableEq α] : List (α × β) → α → Option β
  | [], _ => none
  | (k', v) :: rest, k => if k = k' then some v else alookup rest k

/-- Update an association list; an existing key keeps its position and a new
key is appended, like `Map.set` (JavaScript maps preserve insertion order). -/
def aset {α β : Type} [DecidableEq α] : List (α × β) → α → β → List (α × β)
  | [], k, v => [(k, v)]
  | (k', v') :: rest, k, v =>
    if k = k' then (k, v) :: rest else (k', v') :: aset rest k v

/-- Add an element to a set modelled as a list, like `Set.add`. -/
def sadd (s : List Nat) (x : Nat) : List Nat := if x ∈ s then s else s ++ [x]

/-- Remove an element from a set modelled as a list, like `Set.delete`. -/
def sdel (s : List Nat) (x : Nat) : List Nat := s.filter (fun y => y ≠ x)

/-- JavaScript `x || d` on an optional string: `undefined`/`null` and the
empty string are falsy and select the default. -/
def jsOr (x : Option String) (d : String) : String :=
  match x with
  | none => d
  | some s => if s = "" then d else s

/-- JavaScript `x || d` on a plain string (empty is falsy). -/
def jsStrOr (x : String) (d : String) : String := if x = "" then d else x

theorem alookup_aset_self {α β : Type} [DecidableEq α]
    (m : List (α × β)) (k : α) (v : β) : alookup (aset m k v) k = some v := by
  induction m with
  | nil => simp [aset, alookup]
  | cons hd tl ih =>
    obtain ⟨a, b⟩ := hd
    by_cases h : k = a
    · simp [aset, alookup, h]
    · simp [aset, alookup, h, ih]

theorem alookup_aset_ne {α β : Type} [DecidableEq α]
    (m : List (α × β)) (k k' : α) (v : β) (h : k' ≠ k) :
    alookup (aset m k v) k' = alookup m k' := by
  induction m with
  | nil => simp [aset, alookup, h]
  | cons hd tl ih =>
    obtain ⟨a, b⟩ := hd
    by_cases hk : k = a
    · subst hk
      simp [aset, alookup, h]
    · by_cases hk' : k' = a
      · simp [aset, alookup, hk, hk']
      · simp [aset, alookup, hk, hk', ih]

/-! ## Session registry, worker selector and stale sweep (`src/server/index.ts`) -/

/-- Per-tab worker state tracked by the server (`ClientConnection`); the
socket handle itself is not modelled. -/
structure ClientConn where
  isNewTab : Bool
  conversations : List String
  lastHeartbeat : Int
deriving DecidableEq

/-- The two server-global registries: the connected-client map (insertion
ordered, keyed by client id) and the conversation-affinity map
(`conversationToClient`). -/
structure Registry where
  clients : List (String × ClientConn)
  conversationToClient : List (String × String)
deriving DecidableEq

/-- Constant `TAB_TIMEOUT_MS` of the server. -/
def TAB_TIMEOUT_MS : Int := 30000

/-- Strategy 1 of `findBestClientForRequest`: the affinity lookup — a client
for the supplied conversation id, when both map lookups hit. -/
def affinityLookup (authId : Option String) (reg : Registry) : Option ClientConn :=
  match authId with
  | some a =>
    match alookup reg.conversationToClient a with
    | some clientId => alookup reg.clients clientId
    | none => none
  | none => none

/-- Selector `findBestClientForRequest` of `src/server/index.ts`:
(1) the affinity entry when live, (2) the first `/new` tab, (3) the last
entry of the client map (`[...clients.values()].at(-1)`), (4) none. -/
def findBestClientForRequest (authId : Option String) (reg : Registry) : Option ClientConn :=
  match affinityLookup authId reg with
  | some c => some c
  | none =>
    match reg.clients.filter (fun e => e.2.isNewTab) with
    | e :: _ => some e.2
    | [] => reg.clients.getLast?.map (fun e => e.2)

/-- One iteration of the stale-tab `setInterval` body for one entry of the
client map: a client whose heartbeat predates `now - TAB_TIMEOUT_MS` is
removed and its affinity entries (those naming exactly this client) are
deleted; a live client leaves the registry untouched. -/
def cleanupStep (now : Int) (acc : Registry) (entry : String × ClientConn) : Registry :=
  if entry.2.lastHeartbeat < now - TAB_TIMEOUT_MS then
    { clients := acc.clients.filter (fun e => ¬ (e.1 = entry.1)),
      conversationToClient :=
        acc.conversationToClient.filter
          (fun kv => ¬ (kv.1 ∈ entry.2.conversations ∧ kv.2 = entry.1)) }
  else acc

/-- The whole stale-tab sweep: iterate the cleanup body over every entry of
the client map (the JavaScript `for (const [clientId, client] of
clients.entries())` loop, which deletes only the entry under scrutiny, so
iterating over the pre-sweep entry list is faithful). -/
def cleanupStaleTabs (reg : Registry) (now : Int) : Registry :=
  reg.clients.foldl (cleanupStep now) reg

theorem cleanupStep_clients_subset (now : Int) (acc : Registry)
    (entry : String × ClientConn) :
    ∀ e ∈ (cleanupStep now acc entry).clients, e ∈ acc.clients := by
  intro e he
  unfold cleanupStep at he
  by_cases h : entry.2.lastHeartbeat < now - TAB_TIMEOUT_MS
  · rw [if_pos h] at he
    exact List.mem_of_mem_filter he
  · rwa [if_neg h] at he

theorem foldl_cleanup_clients_subset (now : Int) :
    ∀ (l : List (String × ClientConn)) (acc : Registry),
      ∀ e ∈ (l.foldl (cleanupStep now) acc).clients, e ∈ acc.clients := by
  intro l
  induction l with
  | nil => intro acc e he; simpa using he
  | cons hd tl ih =>
    intro acc e he
    exact cleanupStep_clients_subset now acc hd e (ih (cleanupStep now acc hd) e he)

theorem cleanupStep_preserves_noKey (now : Int) (acc : Registry)
    (entry : String × ClientConn) (k : String)
    (h : ∀ e ∈ acc.clients, e.1 ≠ k) :
    ∀ e ∈ (cleanupStep now acc entry).clients, e.1 ≠ k := by
  intro e he
  exact h e (cleanupStep_clients_subset now acc entry e he)

theorem foldl_cleanup_preserves_noKey (now : Int) :
    ∀ (l : List (String × ClientConn)) (acc : Registry) (k : String),
      (∀ e ∈ acc.clients, e.1 ≠ k) →
      ∀ e ∈ (l.foldl (cleanupStep now) acc).clients, e.1 ≠ k := by
  intro l
  induction l with
  | nil => intro acc k h e he; exact h e (by simpa using he)
  | cons hd tl ih =>
    intro acc k h e he
    exact ih (cleanupStep now acc hd) k
      (cleanupStep_preserves_noKey now acc hd k h) e he

theorem foldl_cleanup_removes_stale (now : Int) :
    ∀ (l : List (String × ClientConn)) (acc : Registry)
      (x : String × ClientConn), x ∈ l →
      x.2.lastHeartbeat < now - TAB_TIMEOUT_MS →
      ∀ e ∈ (l.foldl (cleanupStep now) acc).clients, e.1 ≠ x.1 := by
  intro l
  induction l with
  | nil => intro acc x hx; exact absurd hx (List.not_mem_nil x)
  | cons hd tl ih =>
    intro acc x hx hstale e he
    rcases List.mem_cons.mp hx with heq | htl
    · subst heq
      refine foldl_cleanup_preserves_noKey now tl (cleanupStep now acc x) x.1 ?_ e he
      intro e' he'
      unfold cleanupStep at he'
      rw [if_pos hstale] at he'
      have := List.of_mem_filter he'
      simpa using this
    · exact ih (cleanupStep now acc hd) x htl hstale e he

theorem cleanupStaleTabs_no_stale_left (reg : Registry) (now : Int) :
    ∀ e ∈ (cleanupStaleTabs reg now).clients,
      ¬ e.2.lastHeartbeat < now - TAB_TIMEOUT_MS := by
  intro e he hstale
  have hmem : e ∈ reg.clients :=
    foldl_cleanup_clients_subset now reg.clients reg e he
  have := foldl_cleanup_removes_stale now reg.clients reg e hmem hstale e he
  exact this rfl

theorem foldl_cleanup_all_live (now : Int) :
    ∀ (l : List (String × ClientConn)) (acc : Registry),
      (∀ e ∈ l, ¬ e.2.lastHeartbeat < now - TAB_TIMEOUT_MS) →
      l.foldl (cleanupStep now) acc = acc := by
  intro l
  induction l with
  | nil => intro acc _; rfl
  | cons hd tl ih =>
    intro acc h
    have hhd : ¬ hd.2.lastHeartbeat < now - TAB_TIMEOUT_MS :=
      h hd (List.mem_cons_self hd tl)
    have hstep : cleanupStep now acc hd = acc := by
      unfold cleanupStep; rw [if_neg hhd]
    simp only [List.foldl_cons, hstep]
    exact ih acc (fun e he => h e (List.mem_cons_of_mem hd he))

/-- C9 — the stale-session sweep is idempotent: re-running the cleanup at
the same timestamp removes no further session and no further affinity
entry, for every registry state and every timestamp. -/
theorem cleanupStaleTabs_idempotent (reg : Registry) (now : Int) :
    cleanupStaleTabs (cleanupStaleTabs reg now) now = cleanupStaleTabs reg now := by
  unfold cleanupStaleTabs
  exact foldl_cleanup_all_live now _ _
    (cleanupStaleTabs_no_stale_left reg now)

/-- C8 — a live affinity entry always wins: when the affinity map names a
worker for the preferred conversation id and that worker is still in the
connected-client map, selection returns exactly that worker (it never falls
through to the fresh-tab or fallback tiers). -/
theorem select_affinity_wins (reg : Registry) (a clientId : String) (c : ClientConn)
    (h1 : alookup reg.conversationToClient a = some clientId)
    (h2 : alookup reg.clients clientId = some c) :
    findBestClientForRequest (some a) reg = some c := by
  simp [findBestClientForRequest, affinityLookup, h1, h2]

/-- Witness for C8 at a concrete registry with two clients and one affinity
entry: the affinity-designated first client is selected even though a later
fresh tab exists. -/
theorem select_affinity_wins_witness :
    findBestClientForRequest (some "conv1")
      { clients := [("tabA", ⟨false, ["conv1"], 100⟩), ("tabB", ⟨true, [], 200⟩)],
        conversationToClient := [("conv1", "tabA")] }
      = some ⟨false, ["conv1"], 100⟩ :=
  select_affinity_wins _ "conv1" "tabA" _ (by decide) (by decide)

/-- C10 — when the affinity tier misses and no connected worker is flagged
as a fresh `/new` tab, selection with a non-empty client map returns the
last entry in insertion order, i.e. the most recently connected worker. -/
theorem select_fallback_most_recent (authId : Option String) (reg : Registry)
    (haff : affinityLookup authId reg = none)
    (hfresh : ∀ e ∈ reg.clients, e.2.isNewTab = false)
    (hne : reg.clients ≠ []) :
    findBestClientForRequest authId reg = reg.clients.getLast?.map (fun e => e.2)
      ∧ (reg.clients.getLast?.map (fun e => e.2)).isSome = true := by
  have hfilter : reg.clients.filter (fun e => e.2.isNewTab) = [] := by
    rw [List.filter_eq_nil_iff]
    intro e he
    simp [hfresh e he]
  constructor
  · unfold findBestClientForRequest
    rw [haff, hfilter]
  · rw [Option.isSome_map']
    rw [List.getLast?_isSome]
    exact hne

/-- Witness for C10: two connected workers, neither fresh, no affinity —
the second (most recently connected) worker is returned, not the first. -/
theorem select_fallback_most_recent_witness :
    findBestClientForRequest none
      { clients := [("tabA", ⟨false, [], 100⟩), ("tabB", ⟨false, [], 200⟩)],
        conversationToClient := [] }
      = some ⟨false, [], 200⟩ := by
  have h := select_fallback_most_recent none
    { clients := [("tabA", ⟨false, [], 100⟩), ("tabB", ⟨false, [], 200⟩)],
      conversationToClient := [] }
    (by decide) (by decide) (by decide)
  exact h.1

/-! ## Protocol adapter data model (`src/server/claude-openai-converter.ts`) -/

/-- Payload of a `content_block_delta` event (`delta` field). A delta with
an empty string models both a missing field and an explicitly empty one:
the handlers guard with JavaScript falsiness (`!delta.thinking`,
`!delta.partial_json`, `!delta.text`), which conflates the two. The
`thinking_summary_delta` payload is `delta.summary.summary`; `other_delta`
stands for the remaining tags (`signature_delta`, ...). -/
inductive DeltaPayload where
  | thinking_delta (thinking : String)
  | text_delta (text : String)
  | input_json_delta (jsonFragment : String)
  | thinking_summary_delta (summary : String)
  | other_delta
deriving DecidableEq

/-- The `content_block` carried by a `content_block_start` event. `input`
is the structured tool input: `some s` models a non-empty object whose
`JSON.stringify` serialization is `s`, `none` a missing or empty one (the
source guards with `content_block.input && Object.keys(...).length > 0`). -/
structure ContentBlock where
  type : String
  id : Option String := none
  name : Option String := none
  text : Option String := none
  thinking : Option String := none
  input : Option String := none
deriving DecidableEq

/-- Vendor stream events consumed by `processEvent`. `message_start`
carries `message.id` and `message.model`; `message_delta` carries
`delta.stop_reason` and `usage.output_tokens`; `error` carries
`content.message`. `ping` stands for any tag the switch defaults on. -/
inductive CEvent where
  | message_start (messageId : String) (model : String)
  | content_block_start (index : Nat) (content_block : ContentBlock)
  | content_block_delta (index : Nat) (delta : DeltaPayload)
  | content_block_stop (index : Nat)
  | message_delta (stop_reason : Option String) (output_tokens : Option Nat)
  | message_stop
  | error (message : Option String)
  | ping
deriving DecidableEq

/-- The single element of `delta.tool_calls` on an emitted chunk: the tool
call id, the function name (present only on tool-call-start chunks) and one
argument fragment. -/
structure ToolCallFragment where
  callId : String
  name : Option String := none
  arguments : String
deriving DecidableEq

/-- An OpenAI-style streaming chunk, restricted to the fields the adapter
ever populates: `choices[0].delta.{role, content, tool_calls}`,
`choices[0].finish_reason`, the top-level `id` and `model`, and the
completion-token count attached to the terminal chunk. -/
structure Chunk where
  id : String
  model : String
  role : Option String := none
  content : Option String := none
  toolCall : Option ToolCallFragment := none
  finishReason : Option String := none
  usage : Option Nat := none
deriving DecidableEq

/-- Mutable state of one `AnthropicToOpenAIAdapter` instance. The
`created`/`startTime` clock fields of the source are not modelled. -/
structure AdapterState where
  accumulatedText : List (String × String) := []
  messageId : Option String := none
  model : Option String := none
  stopReason : Option String := none
  usageInfo : Option Nat := none
  finishedBlocks : List Nat := []
  blockTypes : List (Nat × String) := []
  toolCallIds : List (Nat × String) := []
  currentThinkingBlocks : List Nat := []
  currentToolUseBlocks : List Nat := []
  toolInputBuffers : List (Nat × String) := []
deriving DecidableEq

/-- State of a freshly constructed adapter (also the result of `reset()`). -/
def initialAdapterState : AdapterState := {}

/-- Per-character JSON escaping. `escapeJsonString` of the source is a
chain of five global `String.replace` calls (`\` first, then `"`, `\n`,
`\r`, `\t`); since no later replacement rewrites a character produced by an
earlier one, the chain acts independently on each input character, which is
what this map captures. -/
def escChar (c : Char) : List Char :=
  if c = '\\' then ['\\', '\\']
  else if c = '"' then ['\\', '"']
  else if c = '\n' then ['\\', 'n']
  else if c = '\r' then ['\\', 'r']
  else if c = '\t' then ['\\', 't']
  else [c]

/-- Method `escapeJsonString` of the adapter. -/
def escapeJsonString (s : String) : String := ⟨s.data.flatMap escChar⟩

/-- Method `mapStopReason`: the Claude stop reason to OpenAI finish reason
table (`end_turn`/`stop_sequence` → `stop`, `max_tokens` → `length`,
`tool_use` → `function_call`, anything else → `null`). -/
def mapStopReason (claudeStopReason : Option String) : Option String :=
  match claudeStopReason with
  | some "end_turn" => some "stop"
  | some "max_tokens" => some "length"
  | some "stop_sequence" => some "stop"
  | some "tool_use" => some "function_call"
  | _ => none

/-- Fallback chunk id `this.messageId || 'chatcmpl-...'` (the `Date.now()`
suffix is not modelled). -/
def chunkId (s : AdapterState) : String := jsOr s.messageId "chatcmpl"

/-- Fallback chunk model `this.model || 'claude'`. -/
def chunkModel (s : AdapterState) : String := jsOr s.model "claude"

/-- Synthetic tool-call id `call_thinking_<index>` for thinking blocks. -/
def thinkingCallId (index : Nat) : String := "call_thinking_" ++ Nat.repr index

/-- Fallback tool-call id `tool_call_<index>` for tool-use blocks. -/
def toolCallFallbackId (index : Nat) : String := "tool_call_" ++ Nat.repr index

/-- Key `thinking_<index>` of the `accumulatedText` map. -/
def thinkingKey (index : Nat) : String := "thinking_" ++ Nat.repr index

/-- Key `text_<index>` of the `accumulatedText` map. -/
def textKey (index : Nat) : String := "text_" ++ Nat.repr index

/-- Key `tool_input_<index>` of the `accumulatedText` map. -/
def toolInputKey (index : Nat) : String := "tool_input_" ++ Nat.repr index

/-- Method `handleThinkingBlockStart`: allocate `call_thinking_<index>`,
record the block type, seed the per-block thinking buffer with the initial
thinking text, and emit a tool-call-start chunk (function name `thinking`)
whose argument fragment opens the thoughts object and carries the initial
text JSON-escaped. -/
def handleThinkingBlockStart (s : AdapterState) (index : Nat)
    (content_block : ContentBlock) : AdapterState × Option Chunk :=
  let toolCallId := thinkingCallId index
  let initialThinking := jsOr content_block.thinking ""
  let s' := { s with
    toolCallIds := aset s.toolCallIds index toolCallId,
    blockTypes := aset s.blockTypes index content_block.type,
    accumulatedText := aset s.accumulatedText (thinkingKey index) initialThinking }
  (s', some { id := chunkId s, model := chunkModel s,
              toolCall := some { callId := toolCallId, name := some "thinking",
                                 arguments := "\x7b\"thoughts\":\"" ++ escapeJsonString initialThinking } })

/-- Method `handleThinkingDelta`: append the delta to the per-block buffer
and emit a tool-call-delta chunk carrying the delta JSON-escaped; an empty
(falsy) delta emits nothing. -/
def handleThinkingDelta (s : AdapterState) (index : Nat)
    (thinking : String) : AdapterState × Option Chunk :=
  if thinking = "" then (s, none)
  else
    let toolCallId := (alookup s.toolCallIds index).getD (thinkingCallId index)
    let currentThinking := (alookup s.accumulatedText (thinkingKey index)).getD ""
    let s' := { s with
      accumulatedText :=
        aset s.accumulatedText (thinkingKey index) (currentThinking ++ thinking) }
    (s', some { id := chunkId s, model := chunkModel s,
                toolCall := some { callId := toolCallId,
                                   arguments := escapeJsonString thinking } })

/-- Method `handleThinkingBlockStop`: emit the closing `"}` fragment of the
thoughts object; the state is untouched. -/
def handleThinkingBlockStop (s : AdapterState) (index : Nat) :
    AdapterState × Option Chunk :=
  let toolCallId := (alookup s.toolCallIds index).getD (thinkingCallId index)
  (s, some { id := chunkId s, model := chunkModel s,
             toolCall := some { callId := toolCallId, arguments := "\"\x7d" } })

/-- Method `handleToolUseBlockStart`: record the real (or fallback) tool
call id and the block type, clear the input buffer, stash any initial
structured input in `accumulatedText` (deliberately without emitting it),
and emit a tool-call-start chunk with the tool name and an opening `{`. -/
def handleToolUseBlockStart (s : AdapterState) (index : Nat)
    (content_block : ContentBlock) : AdapterState × Option Chunk :=
  let toolCallId := jsOr content_block.id (toolCallFallbackId index)
  let toolName := jsOr content_block.name ""
  let s' := { s with
    toolCallIds := aset s.toolCallIds index toolCallId,
    blockTypes := aset s.blockTypes index content_block.type,
    toolInputBuffers := aset s.toolInputBuffers index "",
    accumulatedText :=
      match content_block.input with
      | some serialized => aset s.accumulatedText (toolInputKey index) serialized
      | none => s.accumulatedText }
  (s', some { id := chunkId s, model := chunkModel s,
              toolCall := some { callId := toolCallId, name := some toolName,
                                 arguments := "\x7b" } })

/-- Method `handleInputJsonDelta`: append the raw fragment to the
diagnostic buffer (the mid-stream `JSON.parse` probe has no effect) and
emit it verbatim as a tool-call-delta chunk; an empty (falsy) fragment
emits nothing. -/
def handleInputJsonDelta (s : AdapterState) (index : Nat)
    (jsonFragment : String) : AdapterState × Option Chunk :=
  if jsonFragment = "" then (s, none)
  else
    let toolCallId := (alookup s.toolCallIds index).getD (toolCallFallbackId index)
    let currentBuffer := (alookup s.toolInputBuffers index).getD ""
    let s' := { s with
      toolInputBuffers :=
        aset s.toolInputBuffers index (currentBuffer ++ jsonFragment) }
    (s', some { id := chunkId s, model := chunkModel s,
                toolCall := some { callId := toolCallId,
                                   arguments := jsonFragment } })

/-- Method `handleToolUseBlockStop`: emit the closing `}` fragment. -/
def handleToolUseBlockStop (s : AdapterState) (index : Nat) :
    AdapterState × Option Chunk :=
  let toolCallId := (alookup s.toolCallIds index).getD (toolCallFallbackId index)
  (s, some { id := chunkId s, model := chunkModel s,
             toolCall := some { callId := toolCallId, arguments := "\x7d" } })

/-- Method `handleMessageStart`: reset all per-message state, record the
message id and (identity-mapped, as the server configures no
`modelMapping`) model name, and emit the role-intro chunk. -/
def handleMessageStart (messageId model : String) : AdapterState × Option Chunk :=
  let s' := { initialAdapterState with
    messageId := some messageId, model := some model }
  (s', some { id := messageId, model := model,
              role := some "assistant", content := some "" })

/-- Method `handleContentBlockStart` (non-thinking, non-tool blocks):
record the block type; for a text block seed its buffer and, when initial
text is present (truthy), emit it as a content-delta chunk. -/
def handleContentBlockStart (s : AdapterState) (index : Nat)
    (content_block : ContentBlock) : AdapterState × Option Chunk :=
  let s₁ := { s with blockTypes := aset s.blockTypes index content_block.type }
  if content_block.type = "text" then
    let s₂ := { s₁ with
      accumulatedText :=
        aset s₁.accumulatedText (textKey index) (jsOr content_block.text "") }
    if jsOr content_block.text "" = "" then (s₂, none)
    else (s₂, some { id := chunkId s, model := chunkModel s,
                     content := some (jsOr content_block.text "") })
  else (s₁, none)

/-- Method `handleContentBlockDelta` (text deltas): append to the per-block
buffer and emit the raw delta text; an empty (falsy) delta emits nothing. -/
def handleContentBlockDelta (s : AdapterState) (index : Nat)
    (text : String) : AdapterState × Option Chunk :=
  if text = "" then (s, none)
  else
    let currentText := (alookup s.accumulatedText (textKey index)).getD ""
    let s' := { s with
      accumulatedText := aset s.accumulatedText (textKey index) (currentText ++ text) }
    (s', some { id := chunkId s, model := chunkModel s, content := some text })

/-- Method `handleContentBlockStop` (non-thinking, non-tool blocks): mark
the block finished, emit nothing. -/
def handleContentBlockStop (s : AdapterState) (index : Nat) :
    AdapterState × Option Chunk :=
  ({ s with finishedBlocks := sadd s.finishedBlocks index }, none)

/-- Method `handleMessageDelta`: record the stop reason and usage, emit
nothing. -/
def handleMessageDelta (s : AdapterState) (stop_reason : Option String)
    (output_tokens : Option Nat) : AdapterState × Option Chunk :=
  let s₁ := { s with stopReason := stop_reason }
  let s₂ := match output_tokens with
    | some n => { s₁ with usageInfo := some n }
    | none => s₁
  (s₂, none)

/-- Method `handleMessageStop`: compute the final finish reason
(`tool_calls` when a tool-use block is still open or the raw stop reason is
`tool_use`, else the mapped stop reason) and emit the terminal chunk. The
source also calls the per-block stop handlers for still-open blocks here,
but discards their chunks and they mutate nothing, so nothing of that loop
is observable. -/
def handleMessageStop (s : AdapterState) : AdapterState × Option Chunk :=
  let finishReason := mapStopReason s.stopReason
  let finalFinishReason :=
    if s.currentToolUseBlocks ≠ [] then some "tool_calls"
    else if s.stopReason = some "tool_use" then some "tool_calls"
    else finishReason
  (s, some { id := chunkId s, model := chunkModel s,
             finishReason := finalFinishReason, usage := s.usageInfo })

/-- Routing of a `content_block_stop` event (the `content_block_stop` case
of the `processEvent` switch before the `finishedBlocks` update): dispatch
on the recorded block type and pop the matching live-block set. -/
def routeContentBlockStop (s : AdapterState) (index : Nat) :
    AdapterState × Option Chunk :=
  if alookup s.blockTypes index = some "thinking" then
    let p := handleThinkingBlockStop s index
    ({ p.1 with currentThinkingBlocks := sdel p.1.currentThinkingBlocks index }, p.2)
  else if alookup s.blockTypes index = some "tool_use" then
    let p := handleToolUseBlockStop s index
    ({ p.1 with currentToolUseBlocks := sdel p.1.currentToolUseBlocks index }, p.2)
  else handleContentBlockStop s index

/-- Method `processEvent`: the top-level switch. Thinking and tool-use
starts additionally push the index onto the corresponding live-block set;
`content_block_stop` routes on the recorded block type, pops the live-block
set and marks the block finished; a `thinking_summary_delta` matches no
branch of the delta routing and falls through without a chunk; an `error`
event raises (`Except.error`) instead of producing a chunk. -/
def processEvent : AdapterState → CEvent → Except String (AdapterState × Option Chunk)
  | _, .message_start messageId model => .ok (handleMessageStart messageId model)
  | s, .content_block_start index content_block =>
    if content_block.type = "thinking" then
      let p := handleThinkingBlockStart s index content_block
      .ok ({ p.1 with currentThinkingBlocks := sadd p.1.currentThinkingBlocks index }, p.2)
    else if content_block.type = "tool_use" then
      let p := handleToolUseBlockStart s index content_block
      .ok ({ p.1 with currentToolUseBlocks := sadd p.1.currentToolUseBlocks index }, p.2)
    else .ok (handleContentBlockStart s index content_block)
  | s, .content_block_delta index (.thinking_delta thinking) =>
    .ok (handleThinkingDelta s index thinking)
  | s, .content_block_delta index (.text_delta text) =>
    .ok (handleContentBlockDelta s index text)
  | s, .content_block_delta index (.input_json_delta jsonFragment) =>
    .ok (handleInputJsonDelta s index jsonFragment)
  | s, .content_block_delta _ (.thinking_summary_delta _) => .ok (s, none)
  | s, .content_block_delta _ .other_delta => .ok (s, none)
  | s, .content_block_stop index =>
    let routed := routeContentBlockStop s index
    .ok ({ routed.1 with finishedBlocks := sadd routed.1.finishedBlocks index }, routed.2)
  | s, .message_delta stop_reason output_tokens =>
    .ok (handleMessageDelta s stop_reason output_tokens)
  | s, .message_stop => .ok (handleMessageStop s)
  | _, .error message =>
    .error ("Claude API error: " ++ jsOr message "Unknown error")
  | s, .ping => .ok (s, none)

/-- Process a whole event list in order, collecting the emitted chunks; an
`error` event aborts the run, as the thrown exception does in the source. -/
def processEvents (s : AdapterState) : List CEvent →
    Except String (AdapterState × List Chunk)
  | [] => .ok (s, [])
  | e :: es =>
    match processEvent s e with
    | .error m => .error m
    | .ok (s', oc) =>
      match processEvents s' es with
      | .error m => .error m
      | .ok (s'', cs) => .ok (s'', oc.toList ++ cs)

/-- Chunks a fresh adapter emits for an event list (empty when the run
aborts on an `error` event). -/
def emittedChunks (es : List CEvent) : List Chunk :=
  match processEvents initialAdapterState es with
  | .ok (_, cs) => cs
  | .error _ => []

/-- Adapter state after a fresh adapter consumed an event list (the initial
state when the run aborts). -/
def adapterStateAfter (es : List CEvent) : AdapterState :=
  match processEvents initialAdapterState es with
  | .ok (s, _) => s
  | .error _ => initialAdapterState

/-- Concatenation of the tool-call argument fragments carried by a chunk
list for one tool-call id. -/
def fragmentsFor (tid : String) : List Chunk → String
  | [] => ""
  | c :: cs =>
    (match c.toolCall with
     | some tc => if tc.callId = tid then tc.arguments else ""
     | none => "") ++ fragmentsFor tid cs

/-! ## Bridging one adapter event on the server (`processAdapterEvent`) and
the synchronous error surface (`createSynchronousResponse`) -/

/-- One emission on the per-request stream bridge: either a converted chunk
(`chunk:<requestId>`) or an error (`error:<requestId>` with message, type
and code), always addressed to the owning request id. -/
inductive BridgeEmission where
  | chunkEv (requestId : String) (c : Chunk)
  | errorEv (requestId : String) (message : String) (ty : String) (code : String)
deriving DecidableEq

/-- Function `processAdapterEvent` of `src/server/index.ts`: with no bound
request or adapter it does nothing; otherwise one event is run through the
adapter, a produced chunk is emitted on `chunk:<requestId>`, and a thrown
adapter fault is emitted on `error:<requestId>` with type
`adapter_internal_error` and code `ADAPTER_INTERNAL_EXCEPTION` (the source
then re-throws, which never reaches another request's listeners). -/
def processAdapterEvent (requestId : Option String) (adapter : Option AdapterState)
    (event : CEvent) : Option AdapterState × List BridgeEmission :=
  match requestId, adapter with
  | some rid, some st =>
    (match processEvent st event with
     | .ok (st', some c) => (some st', [.chunkEv rid c])
     | .ok (st', none) => (some st', [])
     | .error m =>
       (some st, [.errorEv rid m "adapter_internal_error" "ADAPTER_INTERNAL_EXCEPTION"]))
  | _, _ => (adapter, [])

/-- HTTP error body assembled by the `error:<requestId>` listener of
`createSynchronousResponse`: status 500 and `{error:{message, type, code}}`
with the `server_error`/`error_processing_request` fallbacks. -/
structure ErrorResponse where
  status : Nat
  message : String
  ty : String
  code : String
deriving DecidableEq

/-- The `error:<requestId>` listener body of `createSynchronousResponse`. -/
def syncErrorResponse (message ty code : String) : ErrorResponse :=
  { status := 500, message := message,
    ty := jsStrOr ty "server_error",
    code := jsStrOr code "error_processing_request" }

/-- C4 — an `error` event never yields a chunk: `processEvent` raises a
fault carrying the vendor message; `processAdapterEvent` converts that
fault into a single `error:<requestId>` emission addressed to the owning
request only (no chunk emission), and the synchronous response listener
surfaces it as a 500 with code `ADAPTER_INTERNAL_EXCEPTION`. -/
theorem error_event_aborts_request (st : AdapterState) (rid : String)
    (m : Option String) :
    processEvent st (.error m) =
        .error ("Claude API error: " ++ jsOr m "Unknown error")
      ∧ processAdapterEvent (some rid) (some st) (.error m) =
        (some st, [.errorEv rid ("Claude API error: " ++ jsOr m "Unknown error")
          "adapter_internal_error" "ADAPTER_INTERNAL_EXCEPTION"])
      ∧ (syncErrorResponse ("Claude API error: " ++ jsOr m "Unknown error")
          "adapter_internal_error" "ADAPTER_INTERNAL_EXCEPTION").status = 500
      ∧ (syncErrorResponse ("Claude API error: " ++ jsOr m "Unknown error")
          "adapter_internal_error" "ADAPTER_INTERNAL_EXCEPTION").code =
        "ADAPTER_INTERNAL_EXCEPTION" := by
  refine ⟨rfl, ?_, rfl, by simp [syncErrorResponse, jsStrOr]⟩
  simp [processAdapterEvent, processEvent]

/-! ## C5 — the thinking-block-start chunk -/

/-- C5 (amended) — a `content_block_start` of type `thinking` at index `i`
allocates the tool-call id `call_thinking_<i>` (not `thinking_<i>` as the
spec writes) and emits one tool-call-start chunk with function name
`thinking` whose argument fragment is the literal `{"thoughts":"` followed
by the initial thinking text JSON-escaped (the escape of the empty string
when no initial text is present). -/
theorem thinking_block_start_chunk (s : AdapterState) (i : Nat)
    (b : ContentBlock) (hb : b.type = "thinking") :
    (processEvent s (.content_block_start i b)).map (fun p => p.2) =
      .ok (some { id := chunkId s, model := chunkModel s,
                  toolCall := some { callId := thinkingCallId i, name := some "thinking",
                                     arguments := "\x7b\"thoughts\":\"" ++
                                       escapeJsonString (jsOr b.thinking "") } }) := by
  simp [processEvent, hb, handleThinkingBlockStart, Except.map]

/-- Witness for C5 (amended) at index 3 with initial text `He said "hi"`. -/
theorem thinking_block_start_chunk_witness :
    (processEvent initialAdapterState
        (.content_block_start 3 { type := "thinking", thinking := some "He said \"hi\"" })).map
        (fun p => p.2) =
      .ok (some { id := chunkId initialAdapterState, model := chunkModel initialAdapterState,
                  toolCall := some { callId := thinkingCallId 3, name := some "thinking",
                                     arguments := "\x7b\"thoughts\":\"" ++
                                       escapeJsonString (jsOr (some "He said \"hi\"") "") } }) :=
  thinking_block_start_chunk initialAdapterState 3
    { type := "thinking", thinking := some "He said \"hi\"" } rfl

/-- Counterexample for C5 as stated: the id allocated for the thinking
block at index 0 is `call_thinking_0`, which is not `thinking_0`. -/
theorem thinking_block_start_id_cx :
    (emittedChunks [.content_block_start 0 { type := "thinking", thinking := some "Hello" }]).map
        (fun c => c.toolCall.map (fun tc => tc.callId)) = [some "call_thinking_0"]
      ∧ "call_thinking_0" ≠ "thinking_0" := by
  constructor
  · rfl
  · decide

/-! ## C6 — thinking summary deltas -/

/-- Method `handleThinkingSummaryDelta` of the earlier converter revision
(`src/claude-openai-converter.ts`, kept in the repository): wrap the
summary as `[SUMMARY: <summary>]`, append it to the thinking buffer after a
newline, and emit the `\n`-prefixed wrapped text JSON-escaped as a
tool-call-delta fragment; a missing or empty summary emits nothing. -/
def legacyHandleThinkingSummaryDelta (s : AdapterState) (index : Nat)
    (summary : Option String) : AdapterState × Option Chunk :=
  match summary with
  | none => (s, none)
  | some sm =>
    if sm = "" then (s, none)
    else
      let toolCallId := thinkingCallId index
      let summaryText := "[SUMMARY: " ++ sm ++ "]"
      let currentThinking := (alookup s.accumulatedText (thinkingKey index)).getD ""
      let s' := { s with
        accumulatedText := aset s.accumulatedText (thinkingKey index)
          (currentThinking ++ "\n" ++ summaryText) }
      (s', some { id := chunkId s, model := chunkModel s,
                  toolCall := some { callId := toolCallId,
                                     arguments := escapeJsonString ("\n" ++ summaryText) } })

/-- C6 (amended) — the converter the server uses drops
`thinking_summary_delta` events entirely (its delta routing has no branch
for them, so no chunk is emitted and no state changes); the summary-wrapped
`\n[SUMMARY: <summary>]` fragment, JSON-escaped, is emitted only by the
earlier converter revision kept in the repository. -/
theorem thinking_summary_delta_behavior :
    (∀ (s : AdapterState) (i : Nat) (sm : String),
        processEvent s (.content_block_delta i (.thinking_summary_delta sm)) = .ok (s, none))
      ∧ (∀ (s : AdapterState) (i : Nat) (sm : String), sm ≠ "" →
          (legacyHandleThinkingSummaryDelta s i (some sm)).2 =
            some { id := chunkId s, model := chunkModel s,
                   toolCall := some { callId := thinkingCallId i,
                                      arguments :=
                                        escapeJsonString ("\n" ++ ("[SUMMARY: " ++ sm ++ "]")) } }) := by
  constructor
  · intro s i sm
    rfl
  · intro s i sm hsm
    simp [legacyHandleThinkingSummaryDelta, hsm]

/-- Witness for C6 (amended): the current converter drops a concrete
summary delta while the legacy revision emits its escaped wrapped text. -/
theorem thinking_summary_delta_behavior_witness :
    processEvent initialAdapterState
        (.content_block_delta 0 (.thinking_summary_delta "sum")) =
        .ok (initialAdapterState, none)
      ∧ (legacyHandleThinkingSummaryDelta initialAdapterState 0 (some "sum")).2 =
        some { id := chunkId initialAdapterState, model := chunkModel initialAdapterState,
               toolCall := some { callId := thinkingCallId 0,
                                  arguments :=
                                    escapeJsonString ("\n" ++ ("[SUMMARY: " ++ "sum" ++ "]")) } } :=
  ⟨thinking_summary_delta_behavior.1 initialAdapterState 0 "sum",
   thinking_summary_delta_behavior.2 initialAdapterState 0 "sum" (by decide)⟩

/-- Counterexample for C6 as stated: on the converter the server uses, a
`thinking_summary_delta` on an open thinking block emits no chunk at all —
the chunk list after the summary delta equals the chunk list before it
(one chunk, from the block start). -/
theorem thinking_summary_delta_cx :
    emittedChunks [.content_block_start 0 { type := "thinking", thinking := some "t" },
        .content_block_delta 0 (.thinking_summary_delta "sum")] =
      emittedChunks [.content_block_start 0 { type := "thinking", thinking := some "t" }]
      ∧ (emittedChunks [.content_block_start 0 { type := "thinking", thinking := some "t" }]).length
        = 1 := by
  constructor
  · rfl
  · rfl

/-! ## C2 and C3 counterexamples -/

/-- Counterexample for C2 as stated: a message in which a `tool_use` block
occurred (and was closed by its `content_block_stop`) whose raw stop reason
is `end_turn` gets terminal finish reason `stop`, not `tool_calls`. -/
theorem tool_use_finish_reason_cx :
    (emittedChunks [.message_start "m1" "mdl",
        .content_block_start 0 { type := "tool_use", id := some "toolu_1", name := some "search" },
        .content_block_stop 0,
        .message_delta (some "end_turn") none,
        .message_stop]).getLast?.map (fun c => c.finishReason) = some (some "stop")
      ∧ (some "stop" : Option String) ≠ some "tool_calls" := by
  constructor
  · rfl
  · decide

/-- Counterexample for C3 as stated: the event sequence
`[message_start, message_stop]` (no stop reason ever delivered) emits no
chunk at all with a non-null finish reason — the terminal chunk itself
carries `null`. -/
theorem terminal_chunk_cx :
    ((emittedChunks [.message_start "m1" "mdl", .message_stop]).filter
        (fun c => c.finishReason ≠ none)).length = 0 := by
  rfl

/-! ## Decimal representation facts

The adapter keys its maps and builds its synthetic tool-call ids with
template strings such as `call_thinking_${index}`; distinguishing the
fragments of different blocks therefore needs injectivity of the decimal
rendering `Nat.repr` and a few first-character disagreements. -/

/-- Numeric value of a decimal digit character. -/
def decDigitVal (c : Char) : Nat := c.toNat - 48

/-- Value of a decimal digit string (most significant first). -/
def digitsVal (l : List Char) : Nat := l.foldl (fun a c => 10 * a + decDigitVal c) 0

theorem digitsVal_concat (l : List Char) (c : Char) :
    digitsVal (l ++ [c]) = 10 * digitsVal l + decDigitVal c := by
  simp [digitsVal, List.foldl_append]

theorem decDigitVal_digitChar (d : Nat) (h : d < 10) :
    decDigitVal (Nat.digitChar d) = d := by
  interval_cases d <;> rfl

theorem toDigitsCore_shift :
    ∀ (f n : Nat) (l : List Char), n < f →
      Nat.toDigitsCore 10 f n l = Nat.toDigitsCore 10 f n [] ++ l := by
  intro f
  induction f with
  | zero => intro n l h; omega
  | succ f ih =>
    intro n l _
    by_cases h0 : n / 10 = 0
    · simp [Nat.toDigitsCore, h0]
    · have hlt : n / 10 < n := Nat.div_lt_self (by omega) (by omega)
      have hf : n / 10 < f := by
        have h10 : 10 ≤ n := by
          by_contra hc
          exact h0 (Nat.div_eq_of_lt (by omega))
        omega
      simp only [Nat.toDigitsCore, h0, if_false]
      rw [ih (n / 10) (Nat.digitChar (n % 10) :: l) hf,
          ih (n / 10) [Nat.digitChar (n % 10)] hf,
          List.append_assoc]
      rfl

theorem digitsVal_toDigitsCore :
    ∀ (f n : Nat), n < f → digitsVal (Nat.toDigitsCore 10 f n []) = n := by
  intro f
  induction f with
  | zero => intro n h; omega
  | succ f ih =>
    intro n _
    by_cases h0 : n / 10 = 0
    · have hn : n < 10 := by
        by_contra hc
        have : 1 ≤ n / 10 := Nat.one_le_div_iff (by omega) |>.mpr (by omega)
        omega
      have hmod : n % 10 = n := Nat.mod_eq_of_lt hn
      simp [Nat.toDigitsCore, h0, digitsVal, hmod, decDigitVal_digitChar n hn]
    · have hlt : n / 10 < n := Nat.div_lt_self (by omega) (by omega)
      have hf : n / 10 < f := by
        have h10 : 10 ≤ n := by
          by_contra hc
          exact h0 (Nat.div_eq_of_lt (by omega))
        omega
      simp only [Nat.toDigitsCore, h0, if_false]
      rw [toDigitsCore_shift f (n / 10) [Nat.digitChar (n % 10)] hf]
      rw [digitsVal_concat, ih (n / 10) hf,
          decDigitVal_digitChar (n % 10) (Nat.mod_lt n (by omega))]
      omega

theorem digitsVal_repr (n : Nat) : digitsVal (Nat.repr n).data = n := by
  show digitsVal (Nat.toDigits 10 n).asString.data = n
  have : (Nat.toDigits 10 n).asString.data = Nat.toDigits 10 n := rfl
  rw [this]
  exact digitsVal_toDigitsCore (n + 1) n (Nat.lt_succ_self n)

theorem repr_injective {m n : Nat} (h : Nat.repr m = Nat.repr n) : m = n := by
  have := congrArg (fun s => digitsVal s.data) h
  simpa [digitsVal_repr] using this

theorem thinkingCallId_inj {i j : Nat} (h : thinkingCallId i = thinkingCallId j) :
    i = j := by
  unfold thinkingCallId at h
  have hdata := congrArg String.data h
  rw [String.data_append, String.data_append] at hdata
  have : (Nat.repr i).data = (Nat.repr j).data := List.append_cancel_left hdata
  exact repr_injective (String.ext this)

theorem thinkingCallId_ne_toolCallFallbackId (i j : Nat) :
    thinkingCallId i ≠ toolCallFallbackId j := by
  intro h
  have hdata := congrArg String.data h
  rw [thinkingCallId, toolCallFallbackId, String.data_append, String.data_append] at hdata
  have h1 : "call_thinking_".data = 'c' :: "all_thinking_".data := rfl
  have h2 : "tool_call_".data = 't' :: "ool_call_".data := rfl
  rw [h1, h2, List.cons_append, List.cons_append] at hdata
  injection hdata with hc _
  exact absurd hc (by decide)

theorem thinkingKey_ne_toolInputKey (i j : Nat) : thinkingKey i ≠ toolInputKey j := by
  intro h
  have hdata := congrArg String.data h
  rw [thinkingKey, toolInputKey, String.data_append, String.data_append] at hdata
  have h1 : "thinking_".data = 't' :: 'h' :: "inking_".data := rfl
  have h2 : "tool_input_".data = 't' :: 'o' :: "ol_input_".data := rfl
  rw [h1, h2] at hdata
  simp only [List.cons_append] at hdata
  injection hdata with _ hdata
  injection hdata with hc _
  exact absurd hc (by decide)

theorem textKey_ne_toolInputKey (i j : Nat) : textKey i ≠ toolInputKey j := by
  intro h
  have hdata := congrArg String.data h
  rw [textKey, toolInputKey, String.data_append, String.data_append] at hdata
  have h1 : "text_".data = 't' :: 'e' :: "xt_".data := rfl
  have h2 : "tool_input_".data = 't' :: 'o' :: "ol_input_".data := rfl
  rw [h1, h2] at hdata
  simp only [List.cons_append] at hdata
  injection hdata with _ hdata
  injection hdata with hc _
  exact absurd hc (by decide)

/-! ## JSON escaping and the thoughts parser

`parseThoughts` is a specification-side decoder for the exact JSON shape
the spec promises for a thinking block's reassembled arguments,
`{"thoughts":"<text>"}`: it strips the literal frame and un-escapes the
body, failing on any malformed input. It exists to state the claim, not to
mirror any source function. -/

theorem escChar_ne_nil (c : Char) : escChar c ≠ [] := by
  unfold escChar
  split_ifs <;> simp

theorem escapeJsonString_append (a b : String) :
    escapeJsonString (a ++ b) = escapeJsonString a ++ escapeJsonString b := by
  apply String.ext
  simp [escapeJsonString, String.data_append, List.flatMap_append]

/-- Inverse of `escChar` on escape codes: the character denoted by `\<c>`. -/
def decodeEscChar (c : Char) : Option Char :=
  if c = '\\' then some '\\'
  else if c = '"' then some '"'
  else if c = 'n' then some '\n'
  else if c = 'r' then some '\r'
  else if c = 't' then some '\t'
  else none

/-- Scan the escaped body of the thoughts string: literal characters up to
the first unescaped quote, which must be followed by exactly the closing
brace; yields the un-escaped text. -/
def scanThoughtsBody : List Char → Option (List Char)
  | [] => none
  | c :: rest =>
    if c = '"' then (if rest = ['\x7d'] then some [] else none)
    else if c = '\\' then
      match rest with
      | [] => none
      | c2 :: rest2 =>
        (decodeEscChar c2).bind fun d => (scanThoughtsBody rest2).map fun l => d :: l
    else (scanThoughtsBody rest).map fun l => c :: l
termination_by l => l.length

/-- Strip an expected literal character prefix. -/
def stripChars : List Char → List Char → Option (List Char)
  | [], rest => some rest
  | p :: ps, c :: cs => if c = p then stripChars ps cs else none
  | _ :: _, [] => none

/-- Parse the exact shape `{"thoughts":"<escaped>"}`, returning the
un-escaped text. -/
def parseThoughts (s : String) : Option String :=
  (stripChars "\x7b\"thoughts\":\"".data s.data).bind fun rest =>
    (scanThoughtsBody rest).map fun l => ⟨l⟩

theorem stripChars_append (p : List Char) (l : List Char) :
    stripChars p (p ++ l) = some l := by
  induction p with
  | nil => rfl
  | cons c cs ih => simp [stripChars, ih]

theorem scanThoughtsBody_escaped (t : List Char) :
    scanThoughtsBody (t.flatMap escChar ++ '"' :: '\x7d' :: []) = some t := by
  induction t with
  | nil => simp [scanThoughtsBody]
  | cons c cs ih =>
    by_cases h1 : c = '\\'
    · subst h1
      rw [List.flatMap_cons, List.append_assoc, scanThoughtsBody.eq_def]
      simp [escChar, decodeEscChar, ih]
    · by_cases h2 : c = '"'
      · subst h2
        rw [List.flatMap_cons, List.append_assoc, scanThoughtsBody.eq_def]
        simp [escChar, decodeEscChar, ih]
      · by_cases h3 : c = '\n'
        · subst h3
          rw [List.flatMap_cons, List.append_assoc, scanThoughtsBody.eq_def]
          simp [escChar, decodeEscChar, ih]
        · by_cases h4 : c = '\r'
          · subst h4
            rw [List.flatMap_cons, List.append_assoc, scanThoughtsBody.eq_def]
            simp [escChar, decodeEscChar, ih]
          · by_cases h5 : c = '\t'
            · subst h5
              rw [List.flatMap_cons, List.append_assoc, scanThoughtsBody.eq_def]
              simp [escChar, decodeEscChar, ih]
            · rw [List.flatMap_cons, List.append_assoc, scanThoughtsBody.eq_def]
              simp [escChar, h1, h2, h3, h4, h5, ih]

theorem parseThoughts_escape (t : String) :
    parseThoughts ("\x7b\"thoughts\":\"" ++ escapeJsonString t ++ "\"\x7d") = some t := by
  obtain ⟨l⟩ := t
  have hdata : ("\x7b\"thoughts\":\"" ++ escapeJsonString ⟨l⟩ ++ "\"\x7d").data =
      "\x7b\"thoughts\":\"".data ++ (l.flatMap escChar ++ '"' :: '\x7d' :: []) := by
    simp [String.data_append, escapeJsonString]
  unfold parseThoughts
  rw [hdata, stripChars_append]
  simp [scanThoughtsBody_escaped]

/-! ## Stream-level plumbing for the adapter -/

/-- Whether an event is the vendor `error` event (the only event that makes
`processEvent` raise). -/
def isErrorEvent : CEvent → Bool
  | .error _ => true
  | _ => false

theorem processEvent_ok_of_not_error (s : AdapterState) (e : CEvent)
    (h : isErrorEvent e = false) : ∃ p, processEvent s e = .ok p := by
  cases e with
  | message_start a b => exact ⟨_, rfl⟩
  | content_block_start i b =>
    simp only [processEvent]
    split_ifs <;> exact ⟨_, rfl⟩
  | content_block_delta i d => cases d <;> exact ⟨_, rfl⟩
  | content_block_stop i => exact ⟨_, rfl⟩
  | message_delta r u => exact ⟨_, rfl⟩
  | message_stop => exact ⟨_, rfl⟩
  | error m => simp [isErrorEvent] at h
  | ping => exact ⟨_, rfl⟩

theorem processEvents_ok_of_noError (s : AdapterState) (es : List CEvent)
    (h : ∀ e ∈ es, isErrorEvent e = false) :
    ∃ p, processEvents s es = .ok p := by
  induction es generalizing s with
  | nil => exact ⟨(s, []), rfl⟩
  | cons e es ih =>
    obtain ⟨⟨s', oc⟩, hp⟩ :=
      processEvent_ok_of_not_error s e (h e (List.mem_cons_self e es))
    obtain ⟨⟨s'', cs⟩, hq⟩ := ih s' (fun e' he' => h e' (List.mem_cons_of_mem e he'))
    exact ⟨(s'', oc.toList ++ cs), by simp [processEvents, hp, hq]⟩

theorem processEvents_append (s : AdapterState) (l1 l2 : List CEvent) :
    processEvents s (l1 ++ l2) =
      match processEvents s l1 with
      | .error m => .error m
      | .ok (s1, cs1) =>
        match processEvents s1 l2 with
        | .error m => .error m
        | .ok (s2, cs2) => .ok (s2, cs1 ++ cs2) := by
  induction l1 generalizing s with
  | nil =>
    simp only [List.nil_append, processEvents]
    cases h : processEvents s l2 with
    | error m => rfl
    | ok p => obtain ⟨s2, cs2⟩ := p; simp
  | cons e es ih =>
    simp only [List.cons_append, processEvents]
    cases hp : processEvent s e with
    | error m => rfl
    | ok p =>
      obtain ⟨s', oc⟩ := p
      dsimp only
      rw [List.append_eq, ih s']
      cases h1 : processEvents s' es with
      | error m => rfl
      | ok q =>
        obtain ⟨s1, cs1⟩ := q
        dsimp only
        cases h2 : processEvents s1 l2 with
        | error m => rfl
        | ok r => obtain ⟨s2, cs2⟩ := r; simp

theorem fragmentsFor_append (tid : String) (cs1 cs2 : List Chunk) :
    fragmentsFor tid (cs1 ++ cs2) = fragmentsFor tid cs1 ++ fragmentsFor tid cs2 := by
  induction cs1 with
  | nil =>
    apply String.ext
    simp [fragmentsFor, String.data_append]
  | cons c cs ih =>
    simp only [List.cons_append, fragmentsFor, List.append_eq, ih, String.append_assoc]

theorem processEvent_finish_none (s s' : AdapterState) (e : CEvent) (c : Chunk)
    (he : e ≠ CEvent.message_stop) (h : processEvent s e = .ok (s', some c)) :
    c.finishReason = none := by
  cases e with
  | message_start a b =>
    simp [processEvent, handleMessageStart] at h
    obtain ⟨-, rfl⟩ := h
    rfl
  | content_block_start i b =>
    simp only [processEvent] at h
    split_ifs at h with hb1 hb2
    · simp [handleThinkingBlockStart] at h
      obtain ⟨-, rfl⟩ := h
      rfl
    · simp [handleToolUseBlockStart] at h
      obtain ⟨-, rfl⟩ := h
      rfl
    · unfold handleContentBlockStart at h
      split_ifs at h with ht hte
      · simp at h
      · simp at h
        obtain ⟨-, rfl⟩ := h
        rfl
      · simp at h
  | content_block_delta i d =>
    cases d with
    | thinking_delta t =>
      simp only [processEvent] at h
      unfold handleThinkingDelta at h
      split_ifs at h with ht
      · simp at h
      · simp at h
        obtain ⟨-, rfl⟩ := h
        rfl
    | text_delta t =>
      simp only [processEvent] at h
      unfold handleContentBlockDelta at h
      split_ifs at h with ht
      · simp at h
      · simp at h
        obtain ⟨-, rfl⟩ := h
        rfl
    | input_json_delta j =>
      simp only [processEvent] at h
      unfold handleInputJsonDelta at h
      split_ifs at h with hj
      · simp at h
      · simp at h
        obtain ⟨-, rfl⟩ := h
        rfl
    | thinking_summary_delta sm => simp [processEvent] at h
    | other_delta => simp [processEvent] at h
  | content_block_stop i =>
    simp only [processEvent] at h
    unfold routeContentBlockStop at h
    split_ifs at h
    · simp [handleThinkingBlockStop] at h
      obtain ⟨-, rfl⟩ := h
      rfl
    · simp [handleToolUseBlockStop] at h
      obtain ⟨-, rfl⟩ := h
      rfl
    · simp [handleContentBlockStop] at h
  | message_delta r u =>
    simp only [processEvent] at h
    unfold handleMessageDelta at h
    rcases u with _ | n <;> simp at h
  | message_stop => exact absurd rfl he
  | error m => simp [processEvent] at h
  | ping => simp [processEvent] at h

theorem processEvents_finish_none (es : List CEvent) :
    ∀ (s s' : AdapterState) (cs : List Chunk),
      (∀ e ∈ es, e ≠ CEvent.message_stop) →
      processEvents s es = .ok (s', cs) →
      ∀ c ∈ cs, c.finishReason = none := by
  induction es with
  | nil =>
    intro s s' cs _ h c hc
    simp [processEvents] at h
    obtain ⟨-, rfl⟩ := h
    simp at hc
  | cons e es ih =>
    intro s s' cs hstop h c hc
    simp only [processEvents] at h
    cases hp : processEvent s e with
    | error m => rw [hp] at h; simp at h
    | ok p =>
      obtain ⟨s1, oc⟩ := p
      rw [hp] at h
      dsimp only at h
      cases hq : processEvents s1 es with
      | error m => rw [hq] at h; simp at h
      | ok q =>
        obtain ⟨s2, cs1⟩ := q
        rw [hq] at h
        simp at h
        obtain ⟨-, rfl⟩ := h
        rcases List.mem_append.mp hc with hmem | hmem
        · cases oc with
          | none => simp at hmem
          | some c0 =>
            simp at hmem
            subst hmem
            exact processEvent_finish_none s s1 e c
              (hstop e (List.mem_cons_self e es)) hp
        · exact ih s1 s2 cs1 (fun e' he' => hstop e' (List.mem_cons_of_mem e he'))
            hq c hmem

/-- The terminal chunk `handleMessageStop` builds from the final adapter
state. -/
def messageStopChunk (s : AdapterState) : Chunk :=
  { id := chunkId s, model := chunkModel s,
    finishReason :=
      if s.currentToolUseBlocks ≠ [] then some "tool_calls"
      else if s.stopReason = some "tool_use" then some "tool_calls"
      else mapStopReason s.stopReason,
    usage := s.usageInfo }

theorem handleMessageStop_eq (s : AdapterState) :
    handleMessageStop s = (s, some (messageStopChunk s)) := rfl

theorem processEvents_message_stop_step (s : AdapterState) :
    processEvents s [CEvent.message_stop] = .ok (s, [messageStopChunk s]) := rfl

/-- C3 (amended) — on an event sequence ending in its sole `message_stop`,
every chunk emitted for an earlier event carries a null finish reason and
the `message_stop` event emits exactly one final chunk, so at most one
emitted chunk carries a non-null finish reason; the source claim's stronger
"exactly one" fails when no recognized stop reason was delivered (see the
counterexample). -/
theorem terminal_chunk_uniqueness (body : List CEvent)
    (herr : ∀ e ∈ body, isErrorEvent e = false)
    (hstop : ∀ e ∈ body, e ≠ CEvent.message_stop) :
    (∀ c ∈ (emittedChunks (body ++ [CEvent.message_stop])).dropLast, c.finishReason = none)
      ∧ emittedChunks (body ++ [CEvent.message_stop]) ≠ []
      ∧ ((emittedChunks (body ++ [CEvent.message_stop])).filter
          (fun c => c.finishReason ≠ none)).length ≤ 1 := by
  obtain ⟨⟨s1, cs1⟩, hrun⟩ := processEvents_ok_of_noError initialAdapterState body herr
  have hfull : processEvents initialAdapterState (body ++ [CEvent.message_stop]) =
      .ok (s1, cs1 ++ [messageStopChunk s1]) := by
    rw [processEvents_append, hrun]
    dsimp only
    rw [processEvents_message_stop_step]
  have hchunks : emittedChunks (body ++ [CEvent.message_stop]) =
      cs1 ++ [messageStopChunk s1] := by
    unfold emittedChunks
    rw [hfull]
  have hnone : ∀ c ∈ cs1, c.finishReason = none :=
    processEvents_finish_none body initialAdapterState s1 cs1 hstop hrun
  refine ⟨?_, ?_, ?_⟩
  · rw [hchunks, List.dropLast_concat]
    exact hnone
  · rw [hchunks]
    simp
  · rw [hchunks, List.filter_append]
    have hf1 : cs1.filter (fun c => c.finishReason ≠ none) = [] := by
      rw [List.filter_eq_nil_iff]
      intro c hc
      simp [hnone c hc]
    rw [hf1]
    simp only [List.nil_append, List.filter_singleton]
    cases hd : decide ((messageStopChunk s1).finishReason ≠ none) <;> simp [hd]

/-- Witness for C3 (amended) on a concrete stream delivering stop reason
`end_turn`. -/
theorem terminal_chunk_uniqueness_witness :
    (∀ c ∈ (emittedChunks ([CEvent.message_start "m1" "mdl",
            CEvent.message_delta (some "end_turn") (some 5)] ++
            [CEvent.message_stop])).dropLast, c.finishReason = none)
      ∧ emittedChunks ([CEvent.message_start "m1" "mdl",
            CEvent.message_delta (some "end_turn") (some 5)] ++
            [CEvent.message_stop]) ≠ []
      ∧ ((emittedChunks ([CEvent.message_start "m1" "mdl",
            CEvent.message_delta (some "end_turn") (some 5)] ++
            [CEvent.message_stop])).filter
          (fun c => c.finishReason ≠ none)).length ≤ 1 :=
  terminal_chunk_uniqueness
    [CEvent.message_start "m1" "mdl", CEvent.message_delta (some "end_turn") (some 5)]
    (by decide) (by decide)

/-! ## C2 — terminal finish reason and tool use -/

/-- Stream-level accumulated stop reason: the `stop_reason` delivered by
the last `message_delta` since the last `message_start` (a `message_start`
resets it, mirroring `reset()`). -/
def stopReasonUpd (acc : Option String) (e : CEvent) : Option String :=
  match e with
  | .message_start _ _ => none
  | .message_delta r _ => r
  | _ => acc

/-- Accumulated stop reason of a whole event list, from a fresh adapter. -/
def streamStopReason (es : List CEvent) : Option String :=
  es.foldl stopReasonUpd none

theorem processEvent_stopReason (s s' : AdapterState) (e : CEvent) (oc : Option Chunk)
    (h : processEvent s e = .ok (s', oc)) :
    s'.stopReason = stopReasonUpd s.stopReason e := by
  cases e with
  | message_start a b =>
    simp [processEvent, handleMessageStart] at h
    obtain ⟨rfl, -⟩ := h
    rfl
  | content_block_start i b =>
    simp only [processEvent] at h
    split_ifs at h with hb1 hb2
    · simp [handleThinkingBlockStart] at h
      obtain ⟨rfl, -⟩ := h
      rfl
    · simp [handleToolUseBlockStart] at h
      obtain ⟨rfl, -⟩ := h
      rfl
    · unfold handleContentBlockStart at h
      split_ifs at h with ht hte <;> (simp at h; obtain ⟨rfl, -⟩ := h; rfl)
  | content_block_delta i d =>
    cases d with
    | thinking_delta t =>
      simp only [processEvent] at h
      unfold handleThinkingDelta at h
      split_ifs at h <;> (simp at h; obtain ⟨rfl, -⟩ := h; rfl)
    | text_delta t =>
      simp only [processEvent] at h
      unfold handleContentBlockDelta at h
      split_ifs at h <;> (simp at h; obtain ⟨rfl, -⟩ := h; rfl)
    | input_json_delta j =>
      simp only [processEvent] at h
      unfold handleInputJsonDelta at h
      split_ifs at h <;> (simp at h; obtain ⟨rfl, -⟩ := h; rfl)
    | thinking_summary_delta sm =>
      simp [processEvent] at h
      obtain ⟨rfl, -⟩ := h
      rfl
    | other_delta =>
      simp [processEvent] at h
      obtain ⟨rfl, -⟩ := h
      rfl
  | content_block_stop i =>
    simp only [processEvent] at h
    unfold routeContentBlockStop at h
    split_ifs at h <;>
      (simp [handleThinkingBlockStop, handleToolUseBlockStop,
        handleContentBlockStop] at h; obtain ⟨rfl, -⟩ := h; rfl)
  | message_delta r u =>
    simp only [processEvent] at h
    unfold handleMessageDelta at h
    rcases u with _ | n <;> (simp at h; obtain ⟨rfl, -⟩ := h; rfl)
  | message_stop =>
    simp [processEvent, handleMessageStop] at h
    obtain ⟨rfl, -⟩ := h
    rfl
  | error m => simp [processEvent] at h
  | ping =>
    simp [processEvent] at h
    obtain ⟨rfl, -⟩ := h
    rfl

theorem processEvents_stopReason (es : List CEvent) :
    ∀ (s s' : AdapterState) (cs : List Chunk),
      processEvents s es = .ok (s', cs) →
      s'.stopReason = es.foldl stopReasonUpd s.stopReason := by
  induction es with
  | nil =>
    intro s s' cs h
    simp [processEvents] at h
    obtain ⟨rfl, -⟩ := h
    rfl
  | cons e es ih =>
    intro s s' cs h
    simp only [processEvents] at h
    cases hp : processEvent s e with
    | error m => rw [hp] at h; simp at h
    | ok p =>
      obtain ⟨s1, oc⟩ := p
      rw [hp] at h
      dsimp only at h
      cases hq : processEvents s1 es with
      | error m => rw [hq] at h; simp at h
      | ok q =>
        obtain ⟨s2, cs1⟩ := q
        rw [hq] at h
        simp at h
        obtain ⟨rfl, -⟩ := h
        rw [List.foldl_cons, ← processEvent_stopReason s s1 e oc hp]
        exact ih s1 _ cs1 hq

/-- C2 (amended) — the finish reason on the terminal chunk emitted at
`message_stop` is `tool_calls` exactly when some tool-use block is still
open at that point or the accumulated raw stop reason (the one delivered by
the last `message_delta` since the last `message_start`) is `tool_use`;
otherwise it is the plain mapped stop reason. In particular a tool-use
block that was already closed by its `content_block_stop` does not by
itself force `tool_calls` (see the counterexample). -/
theorem terminal_finish_tool_calls (body : List CEvent)
    (herr : ∀ e ∈ body, isErrorEvent e = false) :
    (emittedChunks (body ++ [CEvent.message_stop])).getLast?.map (fun c => c.finishReason) =
      some (if (adapterStateAfter body).currentToolUseBlocks ≠ []
              ∨ streamStopReason body = some "tool_use"
            then some "tool_calls"
            else mapStopReason (streamStopReason body)) := by
  obtain ⟨⟨s1, cs1⟩, hrun⟩ := processEvents_ok_of_noError initialAdapterState body herr
  have hfull : processEvents initialAdapterState (body ++ [CEvent.message_stop]) =
      .ok (s1, cs1 ++ [messageStopChunk s1]) := by
    rw [processEvents_append, hrun]
    dsimp only
    rw [processEvents_message_stop_step]
  have hchunks : emittedChunks (body ++ [CEvent.message_stop]) =
      cs1 ++ [messageStopChunk s1] := by
    unfold emittedChunks
    rw [hfull]
  have hstate : adapterStateAfter body = s1 := by
    unfold adapterStateAfter
    rw [hrun]
  have hsr : streamStopReason body = s1.stopReason :=
    (processEvents_stopReason body initialAdapterState s1 cs1 hrun).symm
  rw [hchunks, List.getLast?_concat, hstate, hsr]
  unfold messageStopChunk
  simp only [Option.map_some']
  congr 1
  by_cases hA : s1.currentToolUseBlocks ≠ []
  · simp [hA]
  · by_cases hB : s1.stopReason = some "tool_use" <;> simp [hA, hB]

/-- Witness for C2 (amended): a stream whose tool-use block is still open
at `message_stop` gets terminal finish reason `tool_calls`. -/
theorem terminal_finish_tool_calls_witness :
    (emittedChunks ([CEvent.message_start "m1" "mdl",
          CEvent.content_block_start 0
            { type := "tool_use", id := some "toolu_1", name := some "search" },
          CEvent.message_delta (some "end_turn") none] ++
          [CEvent.message_stop])).getLast?.map (fun c => c.finishReason) =
      some (if (adapterStateAfter [CEvent.message_start "m1" "mdl",
              CEvent.content_block_start 0
                { type := "tool_use", id := some "toolu_1", name := some "search" },
              CEvent.message_delta (some "end_turn") none]).currentToolUseBlocks ≠ []
              ∨ streamStopReason [CEvent.message_start "m1" "mdl",
                  CEvent.content_block_start 0
                    { type := "tool_use", id := some "toolu_1", name := some "search" },
                  CEvent.message_delta (some "end_turn") none] = some "tool_use"
            then some "tool_calls"
            else mapStopReason (streamStopReason [CEvent.message_start "m1" "mdl",
              CEvent.content_block_start 0
                { type := "tool_use", id := some "toolu_1", name := some "search" },
              CEvent.message_delta (some "end_turn") none])) :=
  terminal_finish_tool_calls
    [CEvent.message_start "m1" "mdl",
     CEvent.content_block_start 0
       { type := "tool_use", id := some "toolu_1", name := some "search" },
     CEvent.message_delta (some "end_turn") none]
    (by decide)

/-! ## C7 — initial structured tool input never influences the emitted
fragments

The adapter stores the serialized initial input under
`tool_input_<index>` in `accumulatedText` but never reads that map for any
emission, so two runs differing only in that initial input emit identical
chunk sequences. `eraseAcc` projects the buffer map away; two states equal
under it are indistinguishable to every handler's output. -/

/-- Forget the `accumulatedText` buffer map of an adapter state. -/
def eraseAcc (s : AdapterState) : AdapterState := { s with accumulatedText := [] }

theorem processEvent_congr_acc (s t : AdapterState) (e : CEvent)
    (h : eraseAcc s = eraseAcc t) :
    (processEvent s e).map (fun p => (eraseAcc p.1, p.2)) =
      (processEvent t e).map (fun p => (eraseAcc p.1, p.2)) := by
  obtain ⟨sa, f1, f2, f3, f4, f5, f6, f7, f8, f9, f10⟩ := s
  obtain ⟨ta, g1, g2, g3, g4, g5, g6, g7, g8, g9, g10⟩ := t
  simp only [eraseAcc, AdapterState.mk.injEq, and_true, true_and] at h
  obtain ⟨rfl, rfl, rfl, rfl, rfl, rfl, rfl, rfl, rfl, rfl⟩ := h
  cases e with
  | message_start a b => rfl
  | content_block_start i b =>
    simp only [processEvent]
    split_ifs with hb1 hb2
    · simp [handleThinkingBlockStart, eraseAcc, chunkId, chunkModel, Except.map]
    · rcases b.input with _ | serialized <;>
        simp [handleToolUseBlockStart, eraseAcc, chunkId, chunkModel, Except.map]
    · unfold handleContentBlockStart
      split_ifs <;> simp [eraseAcc, chunkId, chunkModel, Except.map]
  | content_block_delta i d =>
    cases d with
    | thinking_delta t' =>
      simp only [processEvent, handleThinkingDelta]
      split_ifs <;> simp [eraseAcc, chunkId, chunkModel, Except.map]
    | text_delta t' =>
      simp only [processEvent, handleContentBlockDelta]
      split_ifs <;> simp [eraseAcc, chunkId, chunkModel, Except.map]
    | input_json_delta j =>
      simp only [processEvent, handleInputJsonDelta]
      split_ifs <;> simp [eraseAcc, chunkId, chunkModel, Except.map]
    | thinking_summary_delta sm => simp [processEvent, eraseAcc, Except.map]
    | other_delta => simp [processEvent, eraseAcc, Except.map]
  | content_block_stop i =>
    simp only [processEvent, routeContentBlockStop]
    split_ifs <;>
      simp [handleThinkingBlockStop, handleToolUseBlockStop, handleContentBlockStop,
        eraseAcc, chunkId, chunkModel, Except.map]
  | message_delta r u =>
    simp only [processEvent, handleMessageDelta]
    rcases u with _ | n <;> simp [eraseAcc, Except.map]
  | message_stop => simp [processEvent, handleMessageStop, eraseAcc, chunkId, chunkModel, Except.map]
  | error m => rfl
  | ping => rfl

theorem processEvents_congr_acc (es : List CEvent) :
    ∀ (s t : AdapterState), eraseAcc s = eraseAcc t →
      (processEvents s es).map (fun p => (eraseAcc p.1, p.2)) =
        (processEvents t es).map (fun p => (eraseAcc p.1, p.2)) := by
  induction es with
  | nil => intro s t h; simp [processEvents, Except.map, h]
  | cons e es ih =>
    intro s t h
    have hstep := processEvent_congr_acc s t e h
    simp only [processEvents]
    cases hps : processEvent s e with
    | error m =>
      rw [hps] at hstep
      cases hpt : processEvent t e with
      | error m' =>
        rw [hpt] at hstep
        simp only [Except.map] at hstep
        injection hstep with hm
        subst hm
        rfl
      | ok q =>
        rw [hpt] at hstep
        simp only [Except.map] at hstep
        exact absurd hstep (by simp)
    | ok p =>
      obtain ⟨s1, oc1⟩ := p
      rw [hps] at hstep
      cases hpt : processEvent t e with
      | error m' =>
        rw [hpt] at hstep
        simp only [Except.map] at hstep
        exact absurd hstep (by simp)
      | ok q =>
        obtain ⟨t1, oc2⟩ := q
        rw [hpt] at hstep
        simp only [Except.map, Except.ok.injEq, Prod.mk.injEq] at hstep
        obtain ⟨heq, hoc⟩ := hstep
        subst hoc
        have hrest := ih s1 t1 heq
        dsimp only
        cases hq1 : processEvents s1 es with
        | error m =>
          rw [hq1] at hrest
          cases hq2 : processEvents t1 es with
          | error m' =>
            rw [hq2] at hrest
            simp only [Except.map] at hrest
            injection hrest with hm
            subst hm
            rfl
          | ok r =>
            rw [hq2] at hrest
            simp only [Except.map] at hrest
            exact absurd hrest (by simp)
        | ok r =>
          obtain ⟨r1, cs1⟩ := r
          rw [hq1] at hrest
          cases hq2 : processEvents t1 es with
          | error m' =>
            rw [hq2] at hrest
            simp only [Except.map] at hrest
            exact absurd hrest (by simp)
          | ok r2 =>
            obtain ⟨r2s, cs2⟩ := r2
            rw [hq2] at hrest
            simp only [Except.map, Except.ok.injEq, Prod.mk.injEq] at hrest
            obtain ⟨h1, h2⟩ := hrest
            simp [Except.map, h1, h2]

theorem tool_input_start_step (s : AdapterState) (i : Nat) (b : ContentBlock)
    (hb : b.type = "tool_use") :
    (processEvent s (.content_block_start i b)).map (fun p => (eraseAcc p.1, p.2)) =
      (processEvent s (.content_block_start i { b with input := none })).map
        (fun p => (eraseAcc p.1, p.2)) := by
  rcases hin : b.input with _ | serialized <;>
    simp [processEvent, hb, handleToolUseBlockStart, hin,
      eraseAcc, chunkId, chunkModel, Except.map]

theorem processEvents_cons_congr (e1 e2 : CEvent) (s : AdapterState) (post : List CEvent)
    (hstep : (processEvent s e1).map (fun p => (eraseAcc p.1, p.2)) =
      (processEvent s e2).map (fun p => (eraseAcc p.1, p.2))) :
    (processEvents s (e1 :: post)).map (fun p => (eraseAcc p.1, p.2)) =
      (processEvents s (e2 :: post)).map (fun p => (eraseAcc p.1, p.2)) := by
  simp only [processEvents]
  cases hs1 : processEvent s e1 with
  | error m =>
    rw [hs1] at hstep
    cases hs2 : processEvent s e2 with
    | error m' =>
      rw [hs2] at hstep
      simp only [Except.map] at hstep
      injection hstep with hm
      subst hm
      rfl
    | ok q =>
      rw [hs2] at hstep
      simp only [Except.map] at hstep
      exact absurd hstep (by simp)
  | ok p =>
    obtain ⟨s1, oc1⟩ := p
    rw [hs1] at hstep
    cases hs2 : processEvent s e2 with
    | error m' =>
      rw [hs2] at hstep
      simp only [Except.map] at hstep
      exact absurd hstep (by simp)
    | ok q =>
      obtain ⟨t1, oc2⟩ := q
      rw [hs2] at hstep
      simp only [Except.map, Except.ok.injEq, Prod.mk.injEq] at hstep
      obtain ⟨heq, hoc⟩ := hstep
      subst hoc
      have hrest := processEvents_congr_acc post s1 t1 heq
      dsimp only
      cases hq1 : processEvents s1 post with
      | error m =>
        rw [hq1] at hrest
        cases hq2 : processEvents t1 post with
        | error m' =>
          rw [hq2] at hrest
          simp only [Except.map] at hrest
          injection hrest with hm
          subst hm
          rfl
        | ok r =>
          rw [hq2] at hrest
          simp only [Except.map] at hrest
          exact absurd hrest (by simp)
      | ok r =>
        obtain ⟨r1, cs1⟩ := r
        rw [hq1] at hrest
        cases hq2 : processEvents t1 post with
        | error m' =>
          rw [hq2] at hrest
          simp only [Except.map] at hrest
          exact absurd hrest (by simp)
        | ok r2 =>
          obtain ⟨r2s, cs2⟩ := r2
          rw [hq2] at hrest
          simp only [Except.map, Except.ok.injEq, Prod.mk.injEq] at hrest
          obtain ⟨h1, h2⟩ := hrest
          simp [Except.map, h1, h2]

/-- C7 — the initial structured input of a tool-use block never reaches the
argument stream: the adapter emits exactly the same chunk sequence (hence
the same `{` + `input_json_delta` fragments + `}` reassembly) whether or
not structured input was present on the `content_block_start` event; the
stored serialization only ever lands in the write-only `accumulatedText`
buffer. -/
theorem tool_input_independence (pre post : List CEvent) (i : Nat) (b : ContentBlock)
    (hb : b.type = "tool_use") :
    emittedChunks (pre ++ CEvent.content_block_start i b :: post) =
      emittedChunks (pre ++ CEvent.content_block_start i { b with input := none } :: post) := by
  unfold emittedChunks
  rw [processEvents_append, processEvents_append]
  cases hpre : processEvents initialAdapterState pre with
  | error m => rfl
  | ok p =>
    obtain ⟨s0, cs0⟩ := p
    dsimp only
    have key := processEvents_cons_congr (CEvent.content_block_start i b)
      (CEvent.content_block_start i { b with input := none }) s0 post
      (tool_input_start_step s0 i b hb)
    cases h1 : processEvents s0 (CEvent.content_block_start i b :: post) with
    | error m =>
      rw [h1] at key
      cases h2 : processEvents s0
          (CEvent.content_block_start i { b with input := none } :: post) with
      | error m' => rfl
      | ok q =>
        rw [h2] at key
        simp only [Except.map] at key
        exact absurd key (by simp)
    | ok q1 =>
      obtain ⟨sf1, csr1⟩ := q1
      rw [h1] at key
      cases h2 : processEvents s0
          (CEvent.content_block_start i { b with input := none } :: post) with
      | error m' =>
        rw [h2] at key
        simp only [Except.map] at key
        exact absurd key (by simp)
      | ok q2 =>
        obtain ⟨sf2, csr2⟩ := q2
        rw [h2] at key
        simp only [Except.map, Except.ok.injEq, Prod.mk.injEq] at key
        dsimp only
        rw [key.2]

/-- Witness for C7: a run whose tool-use block starts with structured input
emits the same chunks as the run without it. -/
theorem tool_input_independence_witness :
    emittedChunks ([CEvent.message_start "m1" "mdl"] ++
        CEvent.content_block_start 0
          { type := "tool_use", id := some "toolu_1", name := some "search",
            input := some "\x7b\"q\":\"x\"\x7d" } ::
        [CEvent.content_block_delta 0 (DeltaPayload.input_json_delta "\"q\":\"x\""),
         CEvent.content_block_stop 0]) =
      emittedChunks ([CEvent.message_start "m1" "mdl"] ++
        CEvent.content_block_start 0
          { type := "tool_use", id := some "toolu_1", name := some "search",
            input := none } ::
        [CEvent.content_block_delta 0 (DeltaPayload.input_json_delta "\"q\":\"x\""),
         CEvent.content_block_stop 0]) :=
  tool_input_independence [CEvent.message_start "m1" "mdl"]
    [CEvent.content_block_delta 0 (DeltaPayload.input_json_delta "\"q\":\"x\""),
     CEvent.content_block_stop 0] 0
    { type := "tool_use", id := some "toolu_1", name := some "search",
      input := some "\x7b\"q\":\"x\"\x7d" } rfl

/-! ## C1 — reassembling a thinking block's argument fragments -/

/-- The block index an event addresses, when any. -/
def eventIndex : CEvent → Option Nat
  | .content_block_start i _ => some i
  | .content_block_delta i _ => some i
  | .content_block_stop i => some i
  | _ => none

/-- Whether an event is a thinking or thinking-summary delta at index `i`. -/
def isThinkingishDelta (i : Nat) : CEvent → Bool
  | .content_block_delta j (.thinking_delta _) => decide (j = i)
  | .content_block_delta j (.thinking_summary_delta _) => decide (j = i)
  | _ => false

/-- Whether an event is `message_start` (which resets the adapter). -/
def isMessageStartEvent : CEvent → Bool
  | .message_start _ _ => true
  | _ => false

/-- Whether an event avoids carrying the reserved tool-call id `tid` as an
explicit block id (real vendor tool-use ids never collide with the
synthetic `call_thinking_<i>` ids). -/
def startIdOk (tid : String) : CEvent → Bool
  | .content_block_start _ blk => decide (blk.id ≠ some tid)
  | _ => true

/-- The thinking text an event contributes to block `i`: the payload of a
`thinking_delta` at index `i`, else nothing. -/
def eventThinkingText (i : Nat) : CEvent → String
  | .content_block_delta j (.thinking_delta t) => if j = i then t else ""
  | _ => ""

/-- Concatenated thinking-delta payloads for block `i` over an event list. -/
def midThinkingText (i : Nat) : List CEvent → String
  | [] => ""
  | e :: es => eventThinkingText i e ++ midThinkingText i es

/-- The argument fragment a single emitted chunk contributes to the
tool-call id `tid`. -/
def chunkFragFor (tid : String) (oc : Option Chunk) : String :=
  match oc with
  | some c =>
    match c.toolCall with
    | some tc => if tc.callId = tid then tc.arguments else ""
    | none => ""
  | none => ""

/-- The state/chunk pair `processEvent` produces, with the (unreachable
under an `ok` run) error case mapped to a no-op. -/
def stepOut (s : AdapterState) (e : CEvent) : AdapterState × Option Chunk :=
  match processEvent s e with
  | .ok p => p
  | .error _ => (s, none)

theorem fragmentsFor_optionCons (tid : String) (oc : Option Chunk) (cs : List Chunk) :
    fragmentsFor tid (oc.toList ++ cs) = chunkFragFor tid oc ++ fragmentsFor tid cs := by
  cases oc with
  | none =>
    apply String.ext
    simp [fragmentsFor, chunkFragFor, String.data_append]
  | some c => rfl

theorem jsOr_ne (x : Option String) (d t : String) (hx : x ≠ some t) (hd : d ≠ t) :
    jsOr x d ≠ t := by
  rcases x with _ | s
  · exact hd
  · simp only [jsOr]
    split_ifs with h
    · exact hd
    · intro he
      exact hx (by rw [he])

theorem frag_pre_step (i : Nat) (e : CEvent) (s : AdapterState)
    (hidx : eventIndex e ≠ some i)
    (hok : startIdOk (thinkingCallId i) e = true)
    (hsafe : ∀ j v, alookup s.toolCallIds j = some v → v ≠ thinkingCallId i) :
    chunkFragFor (thinkingCallId i) (stepOut s e).2 = ""
      ∧ (∀ j v, alookup (stepOut s e).1.toolCallIds j = some v →
          v ≠ thinkingCallId i) := by
  cases e with
  | message_start a b =>
    refine ⟨rfl, ?_⟩
    intro j v hl
    simp [stepOut, processEvent, handleMessageStart, initialAdapterState, alookup] at hl
  | content_block_start jj b =>
    have hij : jj ≠ i := by
      intro hcon
      exact hidx (by simp [eventIndex, hcon])
    simp only [stepOut, processEvent]
    split_ifs with hb1 hb2
    · have hne : thinkingCallId jj ≠ thinkingCallId i :=
        fun hcon => hij (thinkingCallId_inj hcon)
      refine ⟨?_, ?_⟩
      · simp [handleThinkingBlockStart, chunkFragFor, hne]
      · intro j v hl
        simp only [handleThinkingBlockStart] at hl
        by_cases hj : j = jj
        · subst hj
          rw [alookup_aset_self] at hl
          injection hl with hv
          subst hv
          exact hne
        · rw [alookup_aset_ne _ _ _ _ hj] at hl
          exact hsafe j v hl
    · have hfallne : toolCallFallbackId jj ≠ thinkingCallId i :=
        fun hcon => thinkingCallId_ne_toolCallFallbackId i jj hcon.symm
      have hidne : b.id ≠ some (thinkingCallId i) := by
        simpa [startIdOk] using hok
      have hcallne : jsOr b.id (toolCallFallbackId jj) ≠ thinkingCallId i :=
        jsOr_ne _ _ _ hidne hfallne
      refine ⟨?_, ?_⟩
      · simp [handleToolUseBlockStart, chunkFragFor, hcallne]
      · intro j v hl
        simp only [handleToolUseBlockStart] at hl
        by_cases hj : j = jj
        · subst hj
          rw [alookup_aset_self] at hl
          injection hl with hv
          subst hv
          exact hcallne
        · rw [alookup_aset_ne _ _ _ _ hj] at hl
          exact hsafe j v hl
    · refine ⟨?_, ?_⟩
      · unfold handleContentBlockStart chunkFragFor
        split_ifs <;> rfl
      · intro j v hl
        unfold handleContentBlockStart at hl
        split_ifs at hl <;> exact hsafe j v hl
  | content_block_delta jj d =>
    have hij : jj ≠ i := by
      intro hcon
      exact hidx (by simp [eventIndex, hcon])
    cases d with
    | thinking_delta t =>
      simp only [stepOut, processEvent]
      unfold handleThinkingDelta
      split_ifs with hte
      · exact ⟨rfl, hsafe⟩
      · have hne : (alookup s.toolCallIds jj).getD (thinkingCallId jj) ≠ thinkingCallId i := by
          cases hv : alookup s.toolCallIds jj with
          | none =>
            simp only [Option.getD_none]
            exact fun hcon => hij (thinkingCallId_inj hcon)
          | some v =>
            simp only [Option.getD_some]
            exact hsafe jj v hv
        exact ⟨by simp [chunkFragFor, hne], hsafe⟩
    | text_delta t =>
      simp only [stepOut, processEvent]
      unfold handleContentBlockDelta
      split_ifs with hte
      · exact ⟨rfl, hsafe⟩
      · exact ⟨rfl, hsafe⟩
    | input_json_delta jf =>
      simp only [stepOut, processEvent]
      unfold handleInputJsonDelta
      split_ifs with hte
      · exact ⟨rfl, hsafe⟩
      · have hne : (alookup s.toolCallIds jj).getD (toolCallFallbackId jj) ≠ thinkingCallId i := by
          cases hv : alookup s.toolCallIds jj with
          | none =>
            simp only [Option.getD_none]
            exact fun hcon => thinkingCallId_ne_toolCallFallbackId i jj hcon.symm
          | some v =>
            simp only [Option.getD_some]
            exact hsafe jj v hv
        exact ⟨by simp [chunkFragFor, hne], hsafe⟩
    | thinking_summary_delta sm => exact ⟨rfl, hsafe⟩
    | other_delta => exact ⟨rfl, hsafe⟩
  | content_block_stop jj =>
    have hij : jj ≠ i := by
      intro hcon
      exact hidx (by simp [eventIndex, hcon])
    simp only [stepOut, processEvent]
    unfold routeContentBlockStop
    split_ifs with h1 h2
    · have hne : (alookup s.toolCallIds jj).getD (thinkingCallId jj) ≠ thinkingCallId i := by
        cases hv : alookup s.toolCallIds jj with
        | none =>
          simp only [Option.getD_none]
          exact fun hcon => hij (thinkingCallId_inj hcon)
        | some v =>
          simp only [Option.getD_some]
          exact hsafe jj v hv
      exact ⟨by simp [handleThinkingBlockStop, chunkFragFor, hne], hsafe⟩
    · have hne : (alookup s.toolCallIds jj).getD (toolCallFallbackId jj) ≠ thinkingCallId i := by
        cases hv : alookup s.toolCallIds jj with
        | none =>
          simp only [Option.getD_none]
          exact fun hcon => thinkingCallId_ne_toolCallFallbackId i jj hcon.symm
        | some v =>
          simp only [Option.getD_some]
          exact hsafe jj v hv
      exact ⟨by simp [handleToolUseBlockStop, chunkFragFor, hne], hsafe⟩
    · exact ⟨rfl, hsafe⟩
  | message_delta r u =>
    simp only [stepOut, processEvent]
    unfold handleMessageDelta
    rcases u with _ | n
    · exact ⟨rfl, hsafe⟩
    · exact ⟨rfl, hsafe⟩
  | message_stop => exact ⟨rfl, hsafe⟩
  | error m => exact ⟨rfl, hsafe⟩
  | ping => exact ⟨rfl, hsafe⟩

theorem frag_mid_step (i : Nat) (e : CEvent) (s : AdapterState)
    (hcond : eventIndex e = some i → isThinkingishDelta i e = true)
    (hnostart : isMessageStartEvent e = false)
    (hok : startIdOk (thinkingCallId i) e = true)
    (hti : alookup s.toolCallIds i = some (thinkingCallId i))
    (hbt : alookup s.blockTypes i = some "thinking")
    (hsafe : ∀ j v, j ≠ i → alookup s.toolCallIds j = some v → v ≠ thinkingCallId i) :
    chunkFragFor (thinkingCallId i) (stepOut s e).2 =
        escapeJsonString (eventThinkingText i e)
      ∧ alookup (stepOut s e).1.toolCallIds i = some (thinkingCallId i)
      ∧ alookup (stepOut s e).1.blockTypes i = some "thinking"
      ∧ (∀ j v, j ≠ i → alookup (stepOut s e).1.toolCallIds j = some v →
          v ≠ thinkingCallId i) := by
  cases e with
  | message_start a b => simp [isMessageStartEvent] at hnostart
  | content_block_start jj b =>
    have hij : jj ≠ i := by
      intro hcon
      subst hcon
      have := hcond (by simp [eventIndex])
      simp [isThinkingishDelta] at this
    simp only [stepOut, processEvent]
    split_ifs with hb1 hb2
    · have hne : thinkingCallId jj ≠ thinkingCallId i :=
        fun hcon => hij (thinkingCallId_inj hcon)
      refine ⟨?_, ?_, ?_, ?_⟩
      · simp [handleThinkingBlockStart, chunkFragFor, hne, eventThinkingText,
          escapeJsonString]
      · simp only [handleThinkingBlockStart]
        rw [alookup_aset_ne _ _ _ _ (fun hcon => hij hcon.symm)]
        exact hti
      · simp only [handleThinkingBlockStart]
        rw [alookup_aset_ne _ _ _ _ (fun hcon => hij hcon.symm)]
        exact hbt
      · intro j v hj hl
        simp only [handleThinkingBlockStart] at hl
        by_cases hjjj : j = jj
        · subst hjjj
          rw [alookup_aset_self] at hl
          injection hl with hv
          subst hv
          exact hne
        · rw [alookup_aset_ne _ _ _ _ hjjj] at hl
          exact hsafe j v hj hl
    · have hfallne : toolCallFallbackId jj ≠ thinkingCallId i :=
        fun hcon => thinkingCallId_ne_toolCallFallbackId i jj hcon.symm
      have hidne : b.id ≠ some (thinkingCallId i) := by
        simpa [startIdOk] using hok
      have hcallne : jsOr b.id (toolCallFallbackId jj) ≠ thinkingCallId i :=
        jsOr_ne _ _ _ hidne hfallne
      refine ⟨?_, ?_, ?_, ?_⟩
      · simp [handleToolUseBlockStart, chunkFragFor, hcallne, eventThinkingText,
          escapeJsonString]
      · simp only [handleToolUseBlockStart]
        rw [alookup_aset_ne _ _ _ _ (fun hcon => hij hcon.symm)]
        exact hti
      · simp only [handleToolUseBlockStart]
        rw [alookup_aset_ne _ _ _ _ (fun hcon => hij hcon.symm)]
        exact hbt
      · intro j v hj hl
        simp only [handleToolUseBlockStart] at hl
        by_cases hjjj : j = jj
        · subst hjjj
          rw [alookup_aset_self] at hl
          injection hl with hv
          subst hv
          exact hcallne
        · rw [alookup_aset_ne _ _ _ _ hjjj] at hl
          exact hsafe j v hj hl
    · refine ⟨?_, ?_, ?_, ?_⟩
      · unfold handleContentBlockStart chunkFragFor
        split_ifs <;> simp [eventThinkingText, escapeJsonString]
      · unfold handleContentBlockStart
        split_ifs <;> exact hti
      · unfold handleContentBlockStart
        split_ifs <;>
          (rw [alookup_aset_ne _ _ _ _ (fun hcon => hij hcon.symm)]; exact hbt)
      · intro j v hj hl
        unfold handleContentBlockStart at hl
        split_ifs at hl <;> exact hsafe j v hj hl
  | content_block_delta jj d =>
    cases d with
    | thinking_delta t =>
      by_cases hji : jj = i
      · subst hji
        simp only [stepOut, processEvent]
        unfold handleThinkingDelta
        split_ifs with hte
        · subst hte
          exact ⟨by simp [chunkFragFor, eventThinkingText, escapeJsonString],
            hti, hbt, hsafe⟩
        · refine ⟨?_, hti, hbt, hsafe⟩
          rw [hti]
          simp [chunkFragFor, eventThinkingText]
      · simp only [stepOut, processEvent]
        unfold handleThinkingDelta
        split_ifs with hte
        · exact ⟨by simp [chunkFragFor, eventThinkingText, hji, escapeJsonString],
            hti, hbt, hsafe⟩
        · have hne : (alookup s.toolCallIds jj).getD (thinkingCallId jj) ≠
              thinkingCallId i := by
            cases hv : alookup s.toolCallIds jj with
            | none =>
              simp only [Option.getD_none]
              exact fun hcon => hji (thinkingCallId_inj hcon)
            | some v =>
              simp only [Option.getD_some]
              exact hsafe jj v hji hv
          exact ⟨by simp [chunkFragFor, hne, eventThinkingText, hji, escapeJsonString],
            hti, hbt, hsafe⟩
    | text_delta t =>
      simp only [stepOut, processEvent]
      unfold handleContentBlockDelta
      split_ifs with hte
      · exact ⟨by simp [chunkFragFor, eventThinkingText, escapeJsonString], hti, hbt, hsafe⟩
      · exact ⟨by simp [chunkFragFor, eventThinkingText, escapeJsonString], hti, hbt, hsafe⟩
    | input_json_delta jf =>
      have hji : jj ≠ i := by
        intro hcon
        subst hcon
        have := hcond (by simp [eventIndex])
        simp [isThinkingishDelta] at this
      simp only [stepOut, processEvent]
      unfold handleInputJsonDelta
      split_ifs with hte
      · exact ⟨by simp [chunkFragFor, eventThinkingText, escapeJsonString], hti, hbt, hsafe⟩
      · have hne : (alookup s.toolCallIds jj).getD (toolCallFallbackId jj) ≠
            thinkingCallId i := by
          cases hv : alookup s.toolCallIds jj with
          | none =>
            simp only [Option.getD_none]
            exact fun hcon => thinkingCallId_ne_toolCallFallbackId i jj hcon.symm
          | some v =>
            simp only [Option.getD_some]
            exact hsafe jj v hji hv
        exact ⟨by simp [chunkFragFor, hne, eventThinkingText, escapeJsonString],
          hti, hbt, hsafe⟩
    | thinking_summary_delta sm =>
      exact ⟨by simp [stepOut, processEvent, chunkFragFor, eventThinkingText,
        escapeJsonString], hti, hbt, hsafe⟩
    | other_delta =>
      exact ⟨by simp [stepOut, processEvent, chunkFragFor, eventThinkingText,
        escapeJsonString], hti, hbt, hsafe⟩
  | content_block_stop jj =>
    have hji : jj ≠ i := by
      intro hcon
      subst hcon
      have := hcond (by simp [eventIndex])
      simp [isThinkingishDelta] at this
    simp only [stepOut, processEvent]
    unfold routeContentBlockStop
    split_ifs with h1 h2
    · have hne : (alookup s.toolCallIds jj).getD (thinkingCallId jj) ≠
          thinkingCallId i := by
        cases hv : alookup s.toolCallIds jj with
        | none =>
          simp only [Option.getD_none]
          exact fun hcon => hji (thinkingCallId_inj hcon)
        | some v =>
          simp only [Option.getD_some]
          exact hsafe jj v hji hv
      exact ⟨by simp [handleThinkingBlockStop, chunkFragFor, hne, eventThinkingText,
        escapeJsonString], hti, hbt, hsafe⟩
    · have hne : (alookup s.toolCallIds jj).getD (toolCallFallbackId jj) ≠
          thinkingCallId i := by
        cases hv : alookup s.toolCallIds jj with
        | none =>
          simp only [Option.getD_none]
          exact fun hcon => thinkingCallId_ne_toolCallFallbackId i jj hcon.symm
        | some v =>
          simp only [Option.getD_some]
          exact hsafe jj v hji hv
      exact ⟨by simp [handleToolUseBlockStop, chunkFragFor, hne, eventThinkingText,
        escapeJsonString], hti, hbt, hsafe⟩
    · exact ⟨rfl, hti, hbt, hsafe⟩
  | message_delta r u =>
    simp only [stepOut, processEvent]
    unfold handleMessageDelta
    rcases u with _ | n
    · exact ⟨rfl, hti, hbt, hsafe⟩
    · exact ⟨rfl, hti, hbt, hsafe⟩
  | message_stop => exact ⟨rfl, hti, hbt, hsafe⟩
  | error m => exact ⟨rfl, hti, hbt, hsafe⟩
  | ping => exact ⟨rfl, hti, hbt, hsafe⟩

theorem frag_pre_run (i : Nat) (es : List CEvent) :
    ∀ (s s' : AdapterState) (cs : List Chunk),
      (∀ e ∈ es, eventIndex e ≠ some i) →
      (∀ e ∈ es, startIdOk (thinkingCallId i) e = true) →
      (∀ j v, alookup s.toolCallIds j = some v → v ≠ thinkingCallId i) →
      processEvents s es = .ok (s', cs) →
      fragmentsFor (thinkingCallId i) cs = ""
        ∧ (∀ j v, alookup s'.toolCallIds j = some v → v ≠ thinkingCallId i) := by
  induction es with
  | nil =>
    intro s s' cs _ _ hsafe h
    simp [processEvents] at h
    obtain ⟨rfl, rfl⟩ := h
    exact ⟨rfl, hsafe⟩
  | cons e es ih =>
    intro s s' cs hidx hok hsafe h
    simp only [processEvents] at h
    cases hp : processEvent s e with
    | error m => rw [hp] at h; simp at h
    | ok p =>
      obtain ⟨s1, oc⟩ := p
      rw [hp] at h
      dsimp only at h
      cases hq : processEvents s1 es with
      | error m => rw [hq] at h; simp at h
      | ok q =>
        obtain ⟨s2, cs1⟩ := q
        rw [hq] at h
        simp at h
        obtain ⟨rfl, rfl⟩ := h
        have hout : stepOut s e = (s1, oc) := by simp [stepOut, hp]
        have hstep := frag_pre_step i e s (hidx e (List.mem_cons_self e es))
          (hok e (List.mem_cons_self e es)) hsafe
        rw [hout] at hstep
        have hrest := ih s1 _ cs1 (fun e' he' => hidx e' (List.mem_cons_of_mem e he'))
          (fun e' he' => hok e' (List.mem_cons_of_mem e he')) hstep.2 hq
        refine ⟨?_, hrest.2⟩
        rw [fragmentsFor_optionCons, hstep.1, hrest.1]
        rfl

theorem frag_mid_run (i : Nat) (es : List CEvent) :
    ∀ (s s' : AdapterState) (cs : List Chunk),
      (∀ e ∈ es, eventIndex e = some i → isThinkingishDelta i e = true) →
      (∀ e ∈ es, isMessageStartEvent e = false) →
      (∀ e ∈ es, startIdOk (thinkingCallId i) e = true) →
      alookup s.toolCallIds i = some (thinkingCallId i) →
      alookup s.blockTypes i = some "thinking" →
      (∀ j v, j ≠ i → alookup s.toolCallIds j = some v → v ≠ thinkingCallId i) →
      processEvents s es = .ok (s', cs) →
      fragmentsFor (thinkingCallId i) cs = escapeJsonString (midThinkingText i es)
        ∧ alookup s'.toolCallIds i = some (thinkingCallId i)
        ∧ alookup s'.blockTypes i = some "thinking"
        ∧ (∀ j v, j ≠ i → alookup s'.toolCallIds j = some v →
            v ≠ thinkingCallId i) := by
  induction es with
  | nil =>
    intro s s' cs _ _ _ hti hbt hsafe h
    simp [processEvents] at h
    obtain ⟨rfl, rfl⟩ := h
    exact ⟨rfl, hti, hbt, hsafe⟩
  | cons e es ih =>
    intro s s' cs hcond hnostart hok hti hbt hsafe h
    simp only [processEvents] at h
    cases hp : processEvent s e with
    | error m => rw [hp] at h; simp at h
    | ok p =>
      obtain ⟨s1, oc⟩ := p
      rw [hp] at h
      dsimp only at h
      cases hq : processEvents s1 es with
      | error m => rw [hq] at h; simp at h
      | ok q =>
        obtain ⟨s2, cs1⟩ := q
        rw [hq] at h
        simp at h
        obtain ⟨rfl, rfl⟩ := h
        have hout : stepOut s e = (s1, oc) := by simp [stepOut, hp]
        have hstep := frag_mid_step i e s (hcond e (List.mem_cons_self e es))
          (hnostart e (List.mem_cons_self e es)) (hok e (List.mem_cons_self e es))
          hti hbt hsafe
        rw [hout] at hstep
        obtain ⟨hfrag, hti1, hbt1, hsafe1⟩ := hstep
        have hrest := ih s1 _ cs1 (fun e' he' => hcond e' (List.mem_cons_of_mem e he'))
          (fun e' he' => hnostart e' (List.mem_cons_of_mem e he'))
          (fun e' he' => hok e' (List.mem_cons_of_mem e he')) hti1 hbt1 hsafe1 hq
        refine ⟨?_, hrest.2.1, hrest.2.2.1, hrest.2.2.2⟩
        rw [fragmentsFor_optionCons, hfrag, hrest.1, ← escapeJsonString_append]
        rfl

theorem thinking_start_out (s : AdapterState) (i : Nat) (b : ContentBlock)
    (hb : b.type = "thinking") :
    processEvent s (.content_block_start i b) = .ok
      ({ s with toolCallIds := aset s.toolCallIds i (thinkingCallId i),
                blockTypes := aset s.blockTypes i b.type,
                accumulatedText :=
                  aset s.accumulatedText (thinkingKey i) (jsOr b.thinking ""),
                currentThinkingBlocks := sadd s.currentThinkingBlocks i },
       some { id := chunkId s, model := chunkModel s,
              toolCall := some { callId := thinkingCallId i, name := some "thinking",
                                 arguments := "\x7b\"thoughts\":\"" ++
                                   escapeJsonString (jsOr b.thinking "") } }) := by
  simp [processEvent, hb, handleThinkingBlockStart]

theorem thinking_stop_out (s : AdapterState) (i : Nat)
    (hbt : alookup s.blockTypes i = some "thinking")
    (hti : alookup s.toolCallIds i = some (thinkingCallId i)) :
    processEvent s (.content_block_stop i) = .ok
      ({ s with currentThinkingBlocks := sdel s.currentThinkingBlocks i,
                finishedBlocks := sadd s.finishedBlocks i },
       some { id := chunkId s, model := chunkModel s,
              toolCall := some { callId := thinkingCallId i,
                                 arguments := "\"\x7d" } }) := by
  simp [processEvent, routeContentBlockStop, hbt, handleThinkingBlockStop, hti]

theorem fragmentsFor_cons (tid : String) (c : Chunk) (cs : List Chunk) :
    fragmentsFor tid (c :: cs) = chunkFragFor tid (some c) ++ fragmentsFor tid cs := rfl

/-- C1 — for a stream containing a thinking block at index `i` (opened by
one `content_block_start`, fed by thinking/summary deltas at `i`, closed by
its `content_block_stop`; surrounding events may address other blocks, may
not reuse index `i`, may not reset the message mid-block, and may not forge
the reserved synthetic id), concatenating the argument fragments the
adapter emits for the id `call_thinking_<i>` yields exactly the JSON text
`{"thoughts":"<escaped>"}` whose body un-escapes (via `parseThoughts`) to
the initial thinking text followed by all thinking-delta payloads for that
index. Summary deltas are dropped by this converter, so they contribute
nothing to either side. -/
theorem thinking_fragments_reassemble (pre mid : List CEvent) (i : Nat)
    (b : ContentBlock)
    (hb : b.type = "thinking")
    (herr : ∀ e ∈ pre ++ mid, isErrorEvent e = false)
    (hpre : ∀ e ∈ pre, eventIndex e ≠ some i)
    (hids : ∀ e ∈ pre ++ mid, startIdOk (thinkingCallId i) e = true)
    (hmid : ∀ e ∈ mid, eventIndex e = some i → isThinkingishDelta i e = true)
    (hnostart : ∀ e ∈ mid, isMessageStartEvent e = false) :
    fragmentsFor (thinkingCallId i)
        (emittedChunks (pre ++ CEvent.content_block_start i b ::
          (mid ++ [CEvent.content_block_stop i]))) =
      "\x7b\"thoughts\":\"" ++
        escapeJsonString (jsOr b.thinking "" ++ midThinkingText i mid) ++ "\"\x7d"
      ∧ parseThoughts (fragmentsFor (thinkingCallId i)
          (emittedChunks (pre ++ CEvent.content_block_start i b ::
            (mid ++ [CEvent.content_block_stop i])))) =
        some (jsOr b.thinking "" ++ midThinkingText i mid) := by
  have herr_pre : ∀ e ∈ pre, isErrorEvent e = false :=
    fun e he => herr e (List.mem_append_left _ he)
  have herr_mid : ∀ e ∈ mid, isErrorEvent e = false :=
    fun e he => herr e (List.mem_append_right _ he)
  have hids_pre : ∀ e ∈ pre, startIdOk (thinkingCallId i) e = true :=
    fun e he => hids e (List.mem_append_left _ he)
  have hids_mid : ∀ e ∈ mid, startIdOk (thinkingCallId i) e = true :=
    fun e he => hids e (List.mem_append_right _ he)
  obtain ⟨⟨s0, cs0⟩, hrun0⟩ :=
    processEvents_ok_of_noError initialAdapterState pre herr_pre
  have hres0 := frag_pre_run i pre initialAdapterState s0 cs0 hpre hids_pre
    (by intro j v hl; simp [initialAdapterState, alookup] at hl) hrun0
  have hstart := thinking_start_out s0 i b hb
  obtain ⟨⟨s2, csMid⟩, hrunM⟩ := processEvents_ok_of_noError
    ({ s0 with toolCallIds := aset s0.toolCallIds i (thinkingCallId i),
               blockTypes := aset s0.blockTypes i b.type,
               accumulatedText :=
                 aset s0.accumulatedText (thinkingKey i) (jsOr b.thinking ""),
               currentThinkingBlocks := sadd s0.currentThinkingBlocks i })
    mid herr_mid
  have hti1 : alookup (aset s0.toolCallIds i (thinkingCallId i)) i =
      some (thinkingCallId i) := alookup_aset_self _ _ _
  have hbt1 : alookup (aset s0.blockTypes i b.type) i = some "thinking" := by
    rw [alookup_aset_self, hb]
  have hsafe1 : ∀ j v, j ≠ i →
      alookup (aset s0.toolCallIds i (thinkingCallId i)) j = some v →
      v ≠ thinkingCallId i := by
    intro j v hj hl
    rw [alookup_aset_ne _ _ _ _ hj] at hl
    exact hres0.2 j v hl
  have hresM := frag_mid_run i mid _ s2 csMid hmid hnostart hids_mid hti1 hbt1
    hsafe1 hrunM
  have hstop := thinking_stop_out s2 i hresM.2.2.1 hresM.2.1
  have hfull : processEvents initialAdapterState
      (pre ++ CEvent.content_block_start i b ::
        (mid ++ [CEvent.content_block_stop i])) = .ok
      ({ s2 with currentThinkingBlocks := sdel s2.currentThinkingBlocks i,
                 finishedBlocks := sadd s2.finishedBlocks i },
       cs0 ++ ({ id := chunkId s0, model := chunkModel s0,
                 toolCall := some { callId := thinkingCallId i,
                                    name := some "thinking",
                                    arguments := "\x7b\"thoughts\":\"" ++
                                      escapeJsonString (jsOr b.thinking "") } } ::
         (csMid ++ [{ id := chunkId s2, model := chunkModel s2,
                      toolCall := some { callId := thinkingCallId i,
                                         arguments := "\"\x7d" } }]))) := by
    rw [processEvents_append, hrun0]
    dsimp only
    simp only [processEvents]
    rw [hstart]
    dsimp only
    rw [processEvents_append, hrunM]
    dsimp only
    simp only [processEvents]
    rw [hstop]
    dsimp only
    simp
  have hchunks : emittedChunks (pre ++ CEvent.content_block_start i b ::
      (mid ++ [CEvent.content_block_stop i])) =
      cs0 ++ ({ id := chunkId s0, model := chunkModel s0,
                toolCall := some { callId := thinkingCallId i,
                                   name := some "thinking",
                                   arguments := "\x7b\"thoughts\":\"" ++
                                     escapeJsonString (jsOr b.thinking "") } } ::
        (csMid ++ [{ id := chunkId s2, model := chunkModel s2,
                     toolCall := some { callId := thinkingCallId i,
                                        arguments := "\"\x7d" } }])) := by
    unfold emittedChunks
    rw [hfull]
  have hfrag : fragmentsFor (thinkingCallId i)
      (emittedChunks (pre ++ CEvent.content_block_start i b ::
        (mid ++ [CEvent.content_block_stop i]))) =
      "\x7b\"thoughts\":\"" ++
        escapeJsonString (jsOr b.thinking "" ++ midThinkingText i mid) ++ "\"\x7d" := by
    rw [hchunks, fragmentsFor_append, hres0.1, fragmentsFor_cons,
      fragmentsFor_append, hresM.1, fragmentsFor_cons]
    apply String.ext
    simp [chunkFragFor, fragmentsFor, String.data_append, escapeJsonString,
      List.flatMap_append]
  exact ⟨hfrag, by rw [hfrag]; exact parseThoughts_escape _⟩

/-- Witness for C1 on a concrete stream: initial text `a`, one thinking
delta `b`, one (dropped) summary delta, explicit stop. -/
theorem thinking_fragments_reassemble_witness :
    fragmentsFor (thinkingCallId 0)
        (emittedChunks ([CEvent.message_start "m1" "mdl"] ++
          CEvent.content_block_start 0 { type := "thinking", thinking := some "a" } ::
          ([CEvent.content_block_delta 0 (DeltaPayload.thinking_delta "b"),
            CEvent.content_block_delta 0 (DeltaPayload.thinking_summary_delta "s")] ++
            [CEvent.content_block_stop 0]))) =
      "\x7b\"thoughts\":\"" ++
        escapeJsonString (jsOr (some "a") "" ++
          midThinkingText 0
            [CEvent.content_block_delta 0 (DeltaPayload.thinking_delta "b"),
             CEvent.content_block_delta 0 (DeltaPayload.thinking_summary_delta "s")]) ++
        "\"\x7d"
      ∧ parseThoughts (fragmentsFor (thinkingCallId 0)
          (emittedChunks ([CEvent.message_start "m1" "mdl"] ++
            CEvent.content_block_start 0 { type := "thinking", thinking := some "a" } ::
            ([CEvent.content_block_delta 0 (DeltaPayload.thinking_delta "b"),
              CEvent.content_block_delta 0 (DeltaPayload.thinking_summary_delta "s")] ++
              [CEvent.content_block_stop 0])))) =
        some (jsOr (some "a") "" ++
          midThinkingText 0
            [CEvent.content_block_delta 0 (DeltaPayload.thinking_delta "b"),
             CEvent.content_block_delta 0 (DeltaPayload.thinking_summary_delta "s")]) :=
  thinking_fragments_reassemble [CEvent.message_start "m1" "mdl"]
    [CEvent.content_block_delta 0 (DeltaPayload.thinking_delta "b"),
     CEvent.content_block_delta 0 (DeltaPayload.thinking_summary_delta "s")]
    0 { type := "thinking", thinking := some "a" } rfl
    (by decide) (by decide) (by decide) (by decide) (by decide)
